import Mathlib

/-!
# Job-Bodyguard extraction pipeline: a shallow embedding

This file embeds the job-posting extraction core of the repository
(`packages/parsers/src`: `BaseParser`, `LinkedInParser`, `IndeedParser`,
`HHParser`, `FlagAnalyzer`) as executable Lean definitions and proves
properties of them.

Modelling conventions:
* A JS string is a `List Char` (`Str`).  `String` literals are converted
  with `Str.S`.
* The DOM is a collaborator: a document is a map from selector strings to
  the list of elements `querySelectorAll` would return (`querySelector`
  is its head).  JSON-LD `<script>` blocks appear as the list of their
  `JSON.parse` outcomes (`none` = malformed JSON), since `JSON.parse`
  itself is a host-library collaborator.
* JS `Date` parsing and `Date#toISOString` are host collaborators and are
  passed in as function parameters; times are integer epoch milliseconds
  and `Math.ceil` of their exact division is integer ceiling division.
* Fallible JS code (property access on `null`, calling `.find` on a
  non-array) is modelled in `Except Unit`; a `try { … } catch { continue }`
  catches the error.
-/

namespace JobBodyguard

/-- JS strings are modelled as lists of characters. -/
abbrev Str := List Char

/-- Convert a Lean string literal to the model's string type. -/
def Str.S (s : String) : Str := s.data

open Str (S)

/-- The whitespace test of JS `\s` / `String#trim`, restricted to the
whitespace characters that occur in this code base's inputs. -/
def isWs (c : Char) : Bool :=
  c = ' ' || c = '\t' || c = '\n' || c = '\r' ||
    c = Char.ofNat 0x0b || c = Char.ofNat 0x0c || c = Char.ofNat 0xa0

/-- JS `String#toLowerCase`, character by character, for the scripts this
code base touches (ASCII and Russian Cyrillic). -/
def jsLower (c : Char) : Char :=
  if 'A' ≤ c ∧ c ≤ 'Z' then Char.ofNat (c.toNat + 32)
  else if 'А' ≤ c ∧ c ≤ 'Я' then Char.ofNat (c.toNat + 32)
  else if c = 'Ё' then 'ё'
  else c

/-- `toLowerCase` on a whole string. -/
def lowerStr (s : Str) : Str := s.map jsLower

/-- JS `String#trim`. -/
def jsTrim (s : Str) : Str :=
  ((s.dropWhile isWs).reverse.dropWhile isWs).reverse

/-- JS `String#includes` (exact substring containment). -/
def jsIncludes (hay needle : Str) : Bool :=
  match hay with
  | [] => needle.isEmpty
  | _ :: rest => needle.isPrefixOf hay || jsIncludes rest needle

/-- JS `String#includes` with a single-character needle. -/
def jsIncludesChar (hay : Str) (c : Char) : Bool := hay.contains c

/-- JS `String#substring(0, n)`. -/
def jsTake (s : Str) (n : Nat) : Str := s.take n

/-- JS `String#replace(/\s+/g, ' ')`: collapse every whitespace run to a
single space (`inRun` is true while inside a run already replaced). -/
def collapseWsAux : Bool → Str → Str
  | _, [] => []
  | inRun, c :: rest =>
    if isWs c then
      if inRun then collapseWsAux true rest
      else ' ' :: collapseWsAux true rest
    else c :: collapseWsAux false rest

/-- JS `String#replace(/\s+/g, ' ')`. -/
def collapseWs (s : Str) : Str := collapseWsAux false s

/-! ## JSON values

JSON-LD blocks parse to JSON values.  `JSON.parse` itself is a host
collaborator; the document model carries each block's parse result,
`none` standing for malformed JSON. -/

/-- A parsed JSON value. -/
inductive Json where
  | jnull
  | jbool (b : Bool)
  | jnum (n : Int)
  | jstr (s : Str)
  | jarr (elems : List Json)
  | jobj (fields : List (Str × Json))

namespace Json

/-- JS truthiness of a JSON value (`null`, `false`, `0`, `""` are falsy;
arrays and objects are always truthy). -/
def truthy : Json → Bool
  | jnull => false
  | jbool b => b
  | jnum n => n ≠ 0
  | jstr s => !s.isEmpty
  | jarr _ => true
  | jobj _ => true

/-- Pure JS property read `v[k]`, `undefined` as `none`; reading a
property of `null` is modelled separately (`getE`). -/
def get (v : Json) (k : Str) : Option Json :=
  match v with
  | jobj fields => (fields.find? (fun f => f.1 = k)).map (·.2)
  | _ => none

/-- JS property read `v[k]` with the `TypeError` that reading a property
of `null` raises. -/
def getE (v : Json) (k : Str) : Except Unit (Option Json) :=
  match v with
  | jnull => .error ()
  | _ => .ok (v.get k)

/-- JS `x || y` on an optional JSON value: keep `x` when truthy. -/
def orElseJs (x : Option Json) (y : Json) : Json :=
  match x with
  | some v => if v.truthy then v else y
  | none => y

/-- The string a JS template literal / `String(...)` produces
(`jsStringList` strings out an array's elements, joined by commas). -/
def jsString : Json → Str
  | jnull => S "null"
  | jbool true => S "true"
  | jbool false => S "false"
  | jnum n => S (toString n)
  | jstr s => s
  | jarr elems => (jsStringList elems).intersperse (S ",") |>.flatten
  | jobj _ => S "[object Object]"
where
  jsStringList : List Json → List Str
    | [] => []
    | x :: xs => jsString x :: jsStringList xs

/-- The underlying string of a JSON string, if it is one.  Used where the
TypeScript source casts a JSON field `as string` and the modelled inputs
are in fact strings. -/
def asStr : Json → Option Str
  | jstr s => some s
  | _ => none

end Json

/-! ## `BaseParser.extractJsonLd` (the StructuredDataReader)

Direct translation of `packages/parsers/src/BaseParser.ts` lines 82-113.
A document's JSON-LD blocks are given as their `JSON.parse` results;
`none` is a block whose text is malformed JSON (`JSON.parse` threw). -/

/-- JS strict equality of a possibly-`undefined` value with the string
`'JobPosting'`. -/
def eqJobPostingStr (t : Option Json) : Bool :=
  match t with
  | some (.jstr s) => s == S "JobPosting"
  | _ => false

/-- `item['@type'] === 'JobPosting'`, with the `TypeError` raised when
`item` is `null`. -/
def isJobPostingE (item : Json) : Except Unit Bool := do
  let t ← item.getE (S "@type")
  pure (eqJobPostingStr t)

/-- `Array#find` with the JobPosting predicate, propagating the
`TypeError` a `null` element raises. -/
def findJobPostingE : List Json → Except Unit (Option Json)
  | [] => .ok none
  | item :: rest => do
    if (← isJobPostingE item) then pure (some item) else findJobPostingE rest

/-- The body of the `try { … }` block of `extractJsonLd` for one
successfully parsed JSON value: returns the JobPosting node found in the
value (directly, in a top-level array, or in `@graph`), `none` when the
block holds none, and an error where the JS would raise a `TypeError`. -/
def processBlock (data : Json) : Except Unit (Option Json) := do
  -- Handle array of items
  let fromArr ← match data with
    | .jarr elems => findJobPostingE elems
    | _ => pure none
  match fromArr with
  | some jp => if jp.truthy then pure (some jp) else processBlockRest data
  | none => processBlockRest data
where
  processBlockRest (data : Json) : Except Unit (Option Json) := do
    -- Handle single item
    let t ← data.getE (S "@type")
    if eqJobPostingStr t then pure (some data) else
    -- Handle @graph format
    match ← data.getE (S "@graph") with
    | some g =>
      if g.truthy then
        match g with
        | .jarr elems => do
          match ← findJobPostingE elems with
          | some jp => if jp.truthy then pure (some jp) else pure none
          | none => pure none
        | _ => .error ()   -- `.find` is not a function
      else pure none
    | none => pure none

/-- `BaseParser.extractJsonLd`: scan the parsed JSON-LD blocks in order;
a malformed block (`none`) and a block whose processing raises are both
skipped (`catch { continue }`); the first JobPosting found is returned. -/
def extractJsonLd : List (Option Json) → Option Json
  | [] => none
  | none :: rest => extractJsonLd rest
  | some data :: rest =>
    match processBlock data with
    | .ok (some jp) => some jp
    | .ok none => extractJsonLd rest
    | .error _ => extractJsonLd rest

/-! ### Claim-side formulations of the StructuredDataReader contract -/

/-- A node whose declared type is `"JobPosting"` (pure test, as the claim
words it). -/
def isJobPosting (v : Json) : Bool := eqJobPostingStr (v.get (S "@type"))

/-- The claim's per-block search, exactly as the claim words it: the
first node declaring type JobPosting, looked for directly, in a
top-level array, and inside an `@graph` wrapper. -/
def claimBlockJobPosting (data : Json) : Option Json :=
  if isJobPosting data then some data
  else
    match data with
    | .jarr elems => elems.find? isJobPosting
    | _ =>
      match data.get (S "@graph") with
      | some (.jarr elems) => elems.find? isJobPosting
      | _ => none

/-- The claim's whole-document search: first block (malformed blocks
skipped) yielding a JobPosting node. -/
def claimExtractJsonLd (blocks : List (Option Json)) : Option Json :=
  blocks.findSome? (fun b => b.bind claimBlockJobPosting)

/-- Array scan as the code actually behaves: a `null` element reached
before a JobPosting aborts the whole block (`TypeError` from
`item['@type']`, caught by the block-level `catch`).  `none` = aborted,
`some r` = scan finished with result `r`. -/
def scanJobPosting : List Json → Option (Option Json)
  | [] => some none
  | .jnull :: _ => none
  | item :: rest =>
    if isJobPosting item then some (some item) else scanJobPosting rest

/-- The amended per-block contract: like `claimBlockJobPosting`, except
that an aborted array scan and a truthy non-array `@graph` value make the
block yield nothing (the scan then continues with the next block). -/
def amendedBlockJobPosting (data : Json) : Option Json :=
  match data with
  | .jarr elems => (scanJobPosting elems).bind id
  | _ =>
    if isJobPosting data then some data
    else
      match data.get (S "@graph") with
      | some g =>
        if g.truthy then
          match g with
          | .jarr elems => (scanJobPosting elems).bind id
          | _ => none
        else none
      | none => none

/-- The amended whole-document search. -/
def amendedExtractJsonLd (blocks : List (Option Json)) : Option Json :=
  blocks.findSome? (fun b => b.bind amendedBlockJobPosting)

/-- Do-notation reduction on `Except Unit` (ok). -/
@[simp] lemma exceptBind_ok {α β : Type} (a : α) (f : α → Except Unit β) :
    (do let x ← (.ok a : Except Unit α); f x) = f a := rfl

/-- Do-notation reduction on `Except Unit` (error). -/
@[simp] lemma exceptBind_err {α β : Type} (f : α → Except Unit β) :
    (do let x ← (.error () : Except Unit α); f x) = .error () := rfl

/-- Only an object can declare `@type`. -/
lemma isJobPosting_truthy {v : Json} (h : isJobPosting v = true) :
    v.truthy = true := by
  cases v with
  | jobj _ => rfl
  | _ => simp [isJobPosting, Json.get, eqJobPostingStr] at h

/-- A completed scan's result satisfies the JobPosting test. -/
lemma scanJobPosting_found {elems : List Json} {jp : Json}
    (h : scanJobPosting elems = some (some jp)) : isJobPosting jp = true := by
  induction elems with
  | nil => simp [scanJobPosting] at h
  | cons item rest ih =>
    cases item with
    | jnull => simp [scanJobPosting] at h
    | _ =>
      simp only [scanJobPosting] at h
      split at h
      · cases h; assumption
      · exact ih h

/-- `findJobPostingE` is the abort-aware scan. -/
lemma findJobPostingE_eq (elems : List Json) :
    findJobPostingE elems =
      (match scanJobPosting elems with
       | none => .error ()
       | some r => .ok r) := by
  induction elems with
  | nil => rfl
  | cons item rest ih =>
    cases item with
    | jnull => rfl
    | _ =>
      simp only [findJobPostingE, isJobPostingE, Json.getE, scanJobPosting,
        bind, Except.bind, pure, Except.pure]
      split <;> simp_all [isJobPosting]

/-- The `@graph`-handling tail of a block, claim-shaped. -/
def amendedGraphPart (d : Json) : Option Json :=
  match d.get (S "@graph") with
  | some g =>
    if g.truthy then
      match g with
      | .jarr elems => (scanJobPosting elems).bind id
      | _ => none
    else none
  | none => none

/-- `processBlockRest` on a non-`null` value (where property reads do not
raise), with the caught `TypeError` collapsed to "yields nothing". -/
lemma processBlockRest_eq_aux (d : Json)
    (hT : d.getE (S "@type") = .ok (d.get (S "@type")))
    (hG : d.getE (S "@graph") = .ok (d.get (S "@graph"))) :
    (match processBlock.processBlockRest d with
     | .ok r => r
     | .error _ => none) =
      (if isJobPosting d then some d else amendedGraphPart d) := by
  unfold processBlock.processBlockRest
  rw [hT]
  simp only [exceptBind_ok]
  by_cases hty : eqJobPostingStr (d.get (S "@type")) = true
  · simp [isJobPosting, hty, pure, Except.pure]
  · rw [if_neg hty, if_neg (by simpa [isJobPosting] using hty)]
    rw [hG]
    simp only [exceptBind_ok]
    unfold amendedGraphPart
    cases hg : d.get (S "@graph") with
    | none => rfl
    | some g =>
      by_cases ht : g.truthy
      · simp only [ht, if_true]
        cases g with
        | jarr elems =>
          simp only [findJobPostingE_eq]
          rcases hscan : scanJobPosting elems with _ | r
          · simp [hscan]
          · cases r with
            | none => simp [hscan, pure, Except.pure]
            | some jp =>
              have := isJobPosting_truthy (scanJobPosting_found hscan)
              simp [hscan, this, pure, Except.pure, Option.bind]
        | _ => simp_all [Json.truthy]
      · simp [ht, pure, Except.pure]

/-- `processBlockRest`, with the caught `TypeError` collapsed to
"yields nothing", equals the claim-shaped single-item/`@graph` search. -/
lemma processBlockRest_eq (d : Json) :
    (match processBlock.processBlockRest d with
     | .ok r => r
     | .error _ => none) =
      (if isJobPosting d then some d else amendedGraphPart d) := by
  cases d with
  | jnull => rfl
  | jbool b => exact processBlockRest_eq_aux (.jbool b) rfl rfl
  | jnum n => exact processBlockRest_eq_aux (.jnum n) rfl rfl
  | jstr s => exact processBlockRest_eq_aux (.jstr s) rfl rfl
  | jarr elems => exact processBlockRest_eq_aux (.jarr elems) rfl rfl
  | jobj fields => exact processBlockRest_eq_aux (.jobj fields) rfl rfl

/-- On a non-array block, `processBlock` is just `processBlockRest`. -/
lemma processBlock_nonarr (d : Json)
    (h : processBlock d = processBlock.processBlockRest d)
    (h' : amendedBlockJobPosting d =
      if isJobPosting d then some d else amendedGraphPart d) :
    (match processBlock d with
     | .ok r => r
     | .error _ => none) = amendedBlockJobPosting d := by
  rw [h, processBlockRest_eq, h']

/-- The per-block behaviour of `extractJsonLd`, with the caught
`TypeError` collapsed to "yields nothing", equals the amended contract. -/
lemma processBlock_eq (data : Json) :
    (match processBlock data with
     | .ok r => r
     | .error _ => none) = amendedBlockJobPosting data := by
  cases data with
  | jarr elems =>
    simp only [processBlock, findJobPostingE_eq, amendedBlockJobPosting]
    rcases hscan : scanJobPosting elems with _ | r
    · rfl
    · cases r with
      | none =>
        simp only [exceptBind_ok]
        have := processBlockRest_eq (.jarr elems)
        rw [if_neg (by simp [isJobPosting, Json.get, eqJobPostingStr])] at this
        simpa [amendedGraphPart, Json.get, Option.bind] using this
      | some jp =>
        have := isJobPosting_truthy (scanJobPosting_found hscan)
        simp [this, pure, Except.pure, Option.bind]
  | jnull => exact processBlock_nonarr .jnull rfl rfl
  | jbool b => exact processBlock_nonarr (.jbool b) rfl rfl
  | jnum n => exact processBlock_nonarr (.jnum n) rfl rfl
  | jstr s => exact processBlock_nonarr (.jstr s) rfl rfl
  | jobj fields => exact processBlock_nonarr (.jobj fields) rfl rfl

/-- `extractJsonLd` agrees with the amended contract on every block list. -/
lemma extractJsonLd_eq_amended (blocks : List (Option Json)) :
    extractJsonLd blocks = amendedExtractJsonLd blocks := by
  induction blocks with
  | nil => rfl
  | cons b rest ih =>
    cases b with
    | none => simpa [extractJsonLd, amendedExtractJsonLd] using ih
    | some data =>
      have h := processBlock_eq data
      simp only [extractJsonLd, amendedExtractJsonLd, List.findSome?_cons,
        Option.bind]
      rcases hp : processBlock data with e | r
      · rw [hp] at h
        simp only at h
        rw [← h]
        exact ih
      · rw [hp] at h
        simp only at h
        rw [← h]
        cases r with
        | some jp => rfl
        | none => exact ih

/-- A JSON-LD block that is a top-level array holding a `null` element
before a JobPosting node. -/
def nullThenJobPostingBlock : List (Option Json) :=
  [some (.jarr [.jnull, .jobj [(S "@type", .jstr (S "JobPosting"))]])]

/-- Claim C4, counterexample: on a block whose top-level array holds a
`null` element before the JobPosting node, `extractJsonLd` does not
return the first JobPosting node of the block (the `null['@type']`
`TypeError` makes the `catch` skip the whole block), so the claim's
description of the per-block search is false at this input. -/
theorem C4_counterexample :
    extractJsonLd nullThenJobPostingBlock = none ∧
      claimExtractJsonLd nullThenJobPostingBlock =
        some (.jobj [(S "@type", .jstr (S "JobPosting"))]) ∧
      extractJsonLd nullThenJobPostingBlock ≠
        claimExtractJsonLd nullThenJobPostingBlock := by
  refine ⟨rfl, rfl, ?_⟩
  intro h
  rw [show extractJsonLd nullThenJobPostingBlock = none from rfl] at h
  rw [show claimExtractJsonLd nullThenJobPostingBlock =
    some (.jobj [(S "@type", .jstr (S "JobPosting"))]) from rfl] at h
  cases h

/-- Claim C4 (amended): for every document, the structured-data reader
parses each embedded block as JSON and returns the first node whose
declared type is "JobPosting", searching the parsed value directly,
inside a top-level array, and inside an `@graph` wrapper — except that a
`null` element reached during an array scan before a JobPosting, or a
truthy non-array `@graph` value, makes that block yield nothing (like
malformed JSON, via the caught `TypeError`).  A malformed block is
skipped and the scan continues; if no block yields a JobPosting the
result is `null`; the function is total (never throws). -/
theorem C4_extractJsonLd :
    (∀ blocks : List (Option Json),
        extractJsonLd blocks = amendedExtractJsonLd blocks) ∧
    (∀ pre post : List (Option Json),
        extractJsonLd (pre ++ none :: post) = extractJsonLd (pre ++ post)) ∧
    (∀ blocks : List (Option Json),
        (∀ b ∈ blocks, b.bind amendedBlockJobPosting = none) →
        extractJsonLd blocks = none) := by
  refine ⟨extractJsonLd_eq_amended, ?_, ?_⟩
  · intro pre post
    induction pre with
    | nil => rfl
    | cons b rest ih =>
      cases b with
      | none => simpa [extractJsonLd] using ih
      | some data =>
        simp only [List.cons_append, extractJsonLd]
        rcases processBlock data with _ | (_ | _) <;> simp [ih]
  · intro blocks hnone
    rw [extractJsonLd_eq_amended]
    unfold amendedExtractJsonLd
    induction blocks with
    | nil => rfl
    | cons b rest ih =>
      rw [List.findSome?_cons, hnone b (List.mem_cons_self b rest)]
      exact ih (fun x hx => hnone x (List.mem_cons_of_mem b hx))

/-- Claim C4, witness: the no-JobPosting clause applied at a concrete
two-block document (a non-posting block and a malformed block). -/
theorem C4_witness :
    extractJsonLd [some (.jbool true), none] = none := by
  refine C4_extractJsonLd.2.2 [some (.jbool true), none] ?_
  intro b hb
  rcases List.mem_cons.mp hb with rfl | hb
  · rfl
  · rcases List.mem_cons.mp hb with rfl | hb
    · rfl
    · cases hb

/-! ## `BaseParser.mapSalaryPeriod` and `BaseParser.calculateDaysAgo` -/

/-- The salary period enum of `SalaryData.period`. -/
inductive SalaryPeriod where
  | YEAR
  | MONTH
  | HOUR
deriving DecidableEq

/-- `BaseParser.mapSalaryPeriod`: `undefined` and `''` are falsy and map
to YEAR; otherwise the lowercased text is searched for `hour`, then
`month`, defaulting to YEAR. -/
def mapSalaryPeriod (unitText : Option Str) : SalaryPeriod :=
  match unitText with
  | none => .YEAR
  | some s =>
    if s.isEmpty then .YEAR
    else
      let lower := lowerStr s
      if jsIncludes lower (S "hour") then .HOUR
      else if jsIncludes lower (S "month") then .MONTH
      else .YEAR

/-- Claim C9: `mapSalaryPeriod` returns HOUR exactly when the unit text
contains "hour" case-insensitively; otherwise MONTH exactly when it
contains "month"; otherwise YEAR, with YEAR also for an absent unit
text. -/
theorem C9_mapSalaryPeriod :
    mapSalaryPeriod none = .YEAR ∧
    (∀ s : Str, mapSalaryPeriod (some s) = .HOUR ↔
      jsIncludes (lowerStr s) (S "hour") = true) ∧
    (∀ s : Str, mapSalaryPeriod (some s) = .MONTH ↔
      (jsIncludes (lowerStr s) (S "hour") = false ∧
       jsIncludes (lowerStr s) (S "month") = true)) ∧
    (∀ s : Str, jsIncludes (lowerStr s) (S "hour") = false →
      jsIncludes (lowerStr s) (S "month") = false →
      mapSalaryPeriod (some s) = .YEAR) := by
  have hempty : ∀ needle : Str, needle.isEmpty = false →
      jsIncludes (lowerStr []) needle = false := by
    intro needle h
    simpa [lowerStr, jsIncludes] using h
  refine ⟨rfl, ?_, ?_, ?_⟩ <;> intro s
  · cases s with
    | nil => simp [mapSalaryPeriod, hempty (S "hour") rfl]
    | cons c cs =>
      by_cases h1 : jsIncludes (lowerStr (c :: cs)) (S "hour") = true <;>
        by_cases h2 : jsIncludes (lowerStr (c :: cs)) (S "month") = true <;>
        simp [mapSalaryPeriod, h1, h2]
  · cases s with
    | nil => simp [mapSalaryPeriod, hempty (S "hour") rfl,
        hempty (S "month") rfl]
    | cons c cs =>
      by_cases h1 : jsIncludes (lowerStr (c :: cs)) (S "hour") = true <;>
        by_cases h2 : jsIncludes (lowerStr (c :: cs)) (S "month") = true <;>
        simp [mapSalaryPeriod, h1, h2]
  · intro h1 h2
    cases s with
    | nil => rfl
    | cons c cs => simp [mapSalaryPeriod, h1, h2]

/-- Claim C9, witness: concrete unit texts for each branch. -/
theorem C9_witness :
    mapSalaryPeriod (some (S "rubles")) = .YEAR :=
  C9_mapSalaryPeriod.2.2.2 (S "rubles") (by decide) (by decide)

/-- Milliseconds per day, the divisor `1000 * 60 * 60 * 24`. -/
def dayMs : Nat := 1000 * 60 * 60 * 24

/-- `BaseParser.calculateDaysAgo`: `Math.abs` of the difference of the
two epoch-millisecond instants, then `Math.ceil` of its division by
`1000 * 60 * 60 * 24`.  Under exact (real-valued) division semantics,
`Math.ceil(a / b)` for `0 ≤ a` and `0 < b` is the integer
`(a + b - 1) / b`. -/
def calculateDaysAgo (dateMs nowMs : Int) : Int :=
  (((nowMs - dateMs).natAbs + dayMs - 1) / dayMs : Nat)

/-- Ceiling division on `ℕ` agrees with the rational ceiling. -/
lemma natCeilDiv_eq_ceil (a : ℕ) :
    ((((a + dayMs - 1) / dayMs : ℕ) : ℤ)) = ⌈(a : ℚ) / (dayMs : ℚ)⌉ := by
  have hday : dayMs = 86400000 := rfl
  rw [hday]
  set c : ℕ := (a + 86400000 - 1) / 86400000 with hc
  have key : c * 86400000 < a + 86400000 := by omega
  have key2 : a ≤ c * 86400000 := by omega
  have keyQ : (c : ℚ) * 86400000 < (a : ℚ) + 86400000 := by exact_mod_cast key
  have key2Q : (a : ℚ) ≤ (c : ℚ) * 86400000 := by exact_mod_cast key2
  have hpos : (0 : ℚ) < ((86400000 : ℕ) : ℚ) := by norm_num
  symm
  rw [Int.ceil_eq_iff]
  constructor
  · rw [lt_div_iff hpos]
    push_cast
    linarith
  · rw [div_le_iff hpos]
    push_cast
    linarith

/-- Claim C6: a job age derived from a `datePosted` instant is the
ceiling, in whole days, of the absolute elapsed time between
`datePosted` and capture time; it is never negative, and it is symmetric
in its two instants (so a future-dated post yields the same non-negative
count as a past-dated one). -/
theorem C6_calculateDaysAgo :
    ∀ dateMs nowMs : Int,
      0 ≤ calculateDaysAgo dateMs nowMs ∧
      calculateDaysAgo dateMs nowMs =
        ⌈|(nowMs : ℚ) - (dateMs : ℚ)| / (dayMs : ℚ)⌉ ∧
      calculateDaysAgo dateMs nowMs = calculateDaysAgo nowMs dateMs := by
  intro d n
  refine ⟨Int.ofNat_nonneg _, ?_, ?_⟩
  · have habs : |(n : ℚ) - (d : ℚ)| = (((n - d).natAbs : ℕ) : ℚ) := by
      rw [Int.cast_natAbs,
        show (n : ℚ) - (d : ℚ) = ((n - d : ℤ) : ℚ) by push_cast; ring,
        Int.cast_abs]
    rw [habs]
    exact natCeilDiv_eq_ceil _
  · unfold calculateDaysAgo
    rw [show (n - d).natAbs = (d - n).natAbs by omega]

/-- Claim C6 has no hypotheses; this records a concrete evaluation: a
post dated 10 days before capture has age 10, and one dated 12 hours in
the future has age 1. -/
theorem C6_examples :
    calculateDaysAgo 0 (10 * 86400000) = 10 ∧
      calculateDaysAgo (43200000) 0 = 1 := by
  constructor <;> rfl

/-! ## FlagAnalyzer (`packages/parsers/src/FlagAnalyzer.ts`) -/

/-- Severity levels of `Flag.severity`. -/
inductive Severity where
  | low
  | medium
  | high
  | critical
deriving DecidableEq

/-- Concern/benefit domains of `Flag.category`. -/
inductive FlagCategory where
  | culture
  | workload
  | management
  | compensation
  | growth
  | flexibility
  | benefits
deriving DecidableEq

/-- A flag found in job posting text. -/
structure Flag where
  keyword : Str
  context : Str
  severity : Severity
  category : FlagCategory
deriving DecidableEq

/-- An entry of a pattern catalog.  The `RegExp` is embedded by its
matching predicate `pattern.test`; the catalogs themselves are data
(instances of `FlagAnalyzer`). -/
structure FlagPattern where
  test : Str → Bool
  label : Str
  category : FlagCategory
  severity : Severity

mutual

/-- `text.replace(/<[^>]*>/g, ' ')`: every HTML tag (a `<`, any run of
non-`>` characters, then `>`) becomes a single space; a `<` never closed
by a `>` stays (no tag can match in the remainder).  `stripTagsToSpace`
scans outside a tag; `stripTagsToSpaceTag` scans after a `<`, buffering
the scanned characters (in reverse) in case no `>` closes the tag. -/
def stripTagsToSpace : Str → Str
  | [] => []
  | c :: rest =>
    if c = '<' then stripTagsToSpaceTag [c] rest
    else c :: stripTagsToSpace rest

/-- Tag-interior scanner of `stripTagsToSpace`. -/
def stripTagsToSpaceTag (buf : Str) : Str → Str
  | [] => buf.reverse
  | c :: rest =>
    if c = '>' then ' ' :: stripTagsToSpace rest
    else stripTagsToSpaceTag (c :: buf) rest

end

mutual

/-- `text.replace(/<[^>]+>/g, '')` (the hh.ru variant: at least one
character inside the tag, replaced by nothing).  A `<` immediately
followed by `>` or never closed stays. -/
def stripTagsEmpty : Str → Str
  | [] => []
  | c :: rest =>
    if c = '<' then
      match rest with
      | x :: _ =>
        if x = '>' then c :: stripTagsEmpty rest
        else stripTagsEmptyTag [c] rest
      | [] => [c]
    else c :: stripTagsEmpty rest

/-- Tag-interior scanner of `stripTagsEmpty`. -/
def stripTagsEmptyTag (buf : Str) : Str → Str
  | [] => buf.reverse
  | c :: rest =>
    if c = '>' then stripTagsEmpty rest
    else stripTagsEmptyTag (c :: buf) rest

end

mutual

/-- JS `String#split` on a character-class regex `[…]+`: delimiters are
maximal runs of class characters; leading/trailing delimiter runs yield
empty fragments.  `splitOnSet` scans inside a fragment;
`splitOnSetDelim` scans just after ≥ 1 delimiter characters. -/
def splitOnSet (p : Char → Bool) : Str → List Str
  | [] => [[]]
  | c :: rest =>
    if p c then [] :: splitOnSetDelim p rest
    else
      match splitOnSet p rest with
      | [] => [[c]]
      | t :: ts => (c :: t) :: ts

/-- Delimiter-run scanner of `splitOnSet`. -/
def splitOnSetDelim (p : Char → Bool) : Str → List Str
  | [] => [[]]
  | c :: rest =>
    if p c then splitOnSetDelim p rest
    else
      match splitOnSet p rest with
      | [] => [[c]]
      | t :: ts => (c :: t) :: ts

end

/-- `FlagAnalyzer.splitIntoSentences`: strip tags, split on sentence
terminators / bullets / newlines, drop blank units. -/
def splitIntoSentences (text : Str) : List Str :=
  let cleanText := stripTagsToSpace text
  (splitOnSet
      (fun c => c = '.' || c = '!' || c = '?' || c = '•' || c = '\n')
      cleanText).filter
    (fun s => (jsTrim s).length > 0)

/-- The loop body of `FlagAnalyzer.findFlags`: for each pattern, the
first matching sentence (then `break`), a duplicate-label check, and a
push of the new flag. -/
def findFlagsGo (sentences : List Str) :
    List FlagPattern → List Flag → List Flag
  | [], flags => flags
  | p :: ps, flags =>
    match sentences.find? (fun s => p.test s) with
    | some sentence =>
      if flags.any (fun f => f.keyword == p.label) then
        findFlagsGo sentences ps flags
      else
        findFlagsGo sentences ps
          (flags ++ [{ keyword := p.label,
                       context := jsTake (jsTrim sentence) 200,
                       severity := p.severity,
                       category := p.category }])
    | none => findFlagsGo sentences ps flags

/-- `FlagAnalyzer.findFlags`. -/
def findFlags (text : Str) (patterns : List FlagPattern) : List Flag :=
  findFlagsGo (splitIntoSentences text) patterns []

/-- The `FlagAnalyzer` class: its two pattern catalogs are data. -/
structure FlagAnalyzer where
  redFlagPatterns : List FlagPattern
  greenFlagPatterns : List FlagPattern

/-- `FlagAnalyzer.analyze`. -/
def FlagAnalyzer.analyze (a : FlagAnalyzer) (text : Str) :
    List Flag × List Flag :=
  (findFlags text a.redFlagPatterns, findFlags text a.greenFlagPatterns)

/-- What it means for a flag to be produced from a catalog on `text`:
its keyword is some pattern's label and its context is that pattern's
first matching sentence unit, trimmed and truncated to 200. -/
def FlagFrom (patterns : List FlagPattern) (text : Str) (f : Flag) : Prop :=
  ∃ p ∈ patterns, f.keyword = p.label ∧
    ∃ s, (splitIntoSentences text).find? (fun u => p.test u) = some s ∧
      f.context = jsTake (jsTrim s) 200

lemma findFlagsGo_spec (sentences : List Str) :
    ∀ (patterns : List FlagPattern) (flags : List Flag),
      flags.Pairwise (fun f g => f.keyword ≠ g.keyword) →
      (findFlagsGo sentences patterns flags).Pairwise
        (fun f g => f.keyword ≠ g.keyword) ∧
      ∀ f ∈ findFlagsGo sentences patterns flags,
        f ∈ flags ∨
          ∃ p ∈ patterns, f.keyword = p.label ∧
            ∃ s, sentences.find? (fun u => p.test u) = some s ∧
              f.context = jsTake (jsTrim s) 200 := by
  intro patterns
  induction patterns with
  | nil =>
    intro flags hpw
    exact ⟨hpw, fun f hf => Or.inl hf⟩
  | cons p ps ih =>
    intro flags hpw
    simp only [findFlagsGo]
    cases hfind : sentences.find? (fun s => p.test s) with
    | none =>
      obtain ⟨h1, h2⟩ := ih flags hpw
      refine ⟨h1, fun f hf => ?_⟩
      rcases h2 f hf with h | ⟨q, hq, rest⟩
      · exact Or.inl h
      · exact Or.inr ⟨q, List.mem_cons_of_mem p hq, rest⟩
    | some sentence =>
      dsimp only
      by_cases hdup : flags.any (fun f => f.keyword == p.label) = true
      · rw [if_pos hdup]
        obtain ⟨h1, h2⟩ := ih flags hpw
        refine ⟨h1, fun f hf => ?_⟩
        rcases h2 f hf with h | ⟨q, hq, rest⟩
        · exact Or.inl h
        · exact Or.inr ⟨q, List.mem_cons_of_mem p hq, rest⟩
      · rw [if_neg hdup]
        have hnew : List.Pairwise (fun f g => f.keyword ≠ g.keyword)
            (flags ++ [Flag.mk p.label (jsTake (jsTrim sentence) 200)
              p.severity p.category]) := by
          rw [List.pairwise_append]
          refine ⟨hpw, by simp, ?_⟩
          intro f hf g hg
          simp only [List.mem_singleton] at hg
          subst hg
          intro hEq
          apply hdup
          rw [List.any_eq_true]
          refine ⟨f, hf, ?_⟩
          simpa [beq_iff_eq] using hEq
        obtain ⟨h1, h2⟩ := ih _ hnew
        refine ⟨h1, fun f hf => ?_⟩
        rcases h2 f hf with h | ⟨q, hq, rest⟩
        · rcases List.mem_append.mp h with h | h
          · exact Or.inl h
          · simp only [List.mem_singleton] at h
            subst h
            exact Or.inr ⟨p, List.mem_cons_self p ps, rfl, sentence, hfind, rfl⟩
        · exact Or.inr ⟨q, List.mem_cons_of_mem p hq, rest⟩

/-- Label-distinct lists have at most one flag per label. -/
lemma pairwise_filter_label_le_one {l : List Flag}
    (h : l.Pairwise (fun f g => f.keyword ≠ g.keyword)) (k : Str) :
    (l.filter (fun f => f.keyword == k)).length ≤ 1 := by
  induction l with
  | nil => simp
  | cons f rest ih =>
    rw [List.pairwise_cons] at h
    by_cases hf : f.keyword == k
    · have : rest.filter (fun f => f.keyword == k) = [] := by
        rw [List.filter_eq_nil]
        intro g hg
        have : g.keyword ≠ f.keyword := fun e => h.1 g hg e.symm
        simpa [beq_iff_eq] using fun e => this (e.trans (eq_of_beq hf).symm)
      simp [List.filter_cons, hf, this]
    · simpa [List.filter_cons, hf] using ih h.2

/-- Claim C5: for every input text and each of the two pattern catalogs
independently, `analyze` produces at most one flag per pattern, its
evidence being that pattern's first matching sentence unit; no two flags
of one catalog's result share a keyword label; and every flag's context
is the matching sentence, trimmed, of length at most 200. -/
theorem C5_analyze (a : FlagAnalyzer) (text : Str) (res : List Flag)
    (hres : res = (a.analyze text).1 ∨ res = (a.analyze text).2) :
    (res.Pairwise fun f g => f.keyword ≠ g.keyword) ∧
    (∀ p : FlagPattern,
      (res.filter fun f => f.keyword == p.label).length ≤ 1) ∧
    (∀ f ∈ res,
      (FlagFrom a.redFlagPatterns text f ∨ FlagFrom a.greenFlagPatterns text f) ∧
        f.context.length ≤ 200) := by
  have main : ∀ patterns : List FlagPattern,
      ((findFlags text patterns).Pairwise fun f g => f.keyword ≠ g.keyword) ∧
      ∀ f ∈ findFlags text patterns, FlagFrom patterns text f ∧
        f.context.length ≤ 200 := by
    intro patterns
    obtain ⟨h1, h2⟩ :=
      findFlagsGo_spec (splitIntoSentences text) patterns [] (by simp)
    refine ⟨h1, fun f hf => ?_⟩
    rcases h2 f hf with h | ⟨q, hq, hk, s, hs, hctx⟩
    · cases h
    · refine ⟨⟨q, hq, hk, s, hs, hctx⟩, ?_⟩
      rw [hctx]
      simpa [jsTake] using List.length_take_le 200 (jsTrim s)
  rcases hres with rfl | rfl
  · obtain ⟨h1, h2⟩ := main a.redFlagPatterns
    exact ⟨h1, fun p => pairwise_filter_label_le_one h1 p.label,
      fun f hf => ⟨Or.inl (h2 f hf).1, (h2 f hf).2⟩⟩
  · obtain ⟨h1, h2⟩ := main a.greenFlagPatterns
    exact ⟨h1, fun p => pairwise_filter_label_le_one h1 p.label,
      fun f hf => ⟨Or.inr (h2 f hf).1, (h2 f hf).2⟩⟩

/-- A one-pattern catalog mimicking `/remote|work\s*from\s*home|wfh/i`
restricted to its first alternative, used by the C5 witness. -/
def remotePattern : FlagPattern :=
  { test := fun s => jsIncludes (lowerStr s) (S "remote"),
    label := S "Remote work available",
    category := .flexibility,
    severity := .low }

/-- Claim C5, witness: the theorem applied to a concrete analyzer and a
text whose phrase occurs in two sentence units. -/
theorem C5_witness :
    ((FlagAnalyzer.mk [] [remotePattern]).analyze
        (S "Remote work. Remote again.")).2.Pairwise
      (fun f g => f.keyword ≠ g.keyword) ∧
    (∀ f ∈ ((FlagAnalyzer.mk [] [remotePattern]).analyze
        (S "Remote work. Remote again.")).2,
      (FlagFrom [] (S "Remote work. Remote again.") f ∨
        FlagFrom [remotePattern] (S "Remote work. Remote again.") f) ∧
        f.context.length ≤ 200) := by
  obtain ⟨h1, _, h3⟩ :=
    C5_analyze (FlagAnalyzer.mk [] [remotePattern])
      (S "Remote work. Remote again.") _ (Or.inr rfl)
  exact ⟨h1, h3⟩

/-! ## `HHParser.parseSalary`

The four Russian salary regexes are embedded as deterministic leftmost
scanners.  Each `(\d[\d\s]*)` group is a maximal run of digits and
whitespace starting at a digit; since every character that can follow
the group in the patterns (a dash, or the first character of a currency
token) is outside `[\d\s]`, a backtracking regex engine succeeds at a
position exactly when the maximal-run scan does, with the same digits in
the captured groups. -/

/-- The canonical salary record (`SalaryData` of `@job-bodyguard/types`).
`min`/`max`/`currency` hold the raw JS values the parsers assign. -/
structure SalaryRange where
  min : Option Json
  max : Option Json
  currency : Json
  period : SalaryPeriod

/-- Dash characters of the range pattern `[-–—]`. -/
def isDash (c : Char) : Bool := c = '-' || c = '–' || c = '—'

/-- The character class `[\d\s]`. -/
def inNumCls (c : Char) : Bool := c.isDigit || isWs c

/-- Case-insensitive literal prefix test (for `/…/i` literals). -/
def startsWithCI (l lit : Str) : Bool := lit.isPrefixOf (lowerStr l)

/-- The currency alternation `(₽|руб|rub|руб\.?|р\.?)` matched at the
start of `l` (the optional dots never affect matchability). -/
def isCurrencyAt (l : Str) : Bool :=
  startsWithCI l (S "₽") || startsWithCI l (S "руб") ||
    startsWithCI l (S "rub") || startsWithCI l (S "руб") ||
    startsWithCI l (S "р")

/-- Base-10 value of a digit string. -/
def digitsVal (ds : Str) : Int :=
  ds.foldl (fun acc c => acc * 10 + ((c.toNat : Int) - 48)) 0

/-- `parseInt(s.replace(/\s/g, ''), 10)`: strip whitespace, then the
value of the leading digit run (the captured groups this is applied to
hold only digits and whitespace and start with a digit). -/
def parseNum (s : Str) : Int :=
  digitsVal ((s.filter (fun c => !isWs c)).takeWhile Char.isDigit)

/-- One attempt of `/(\d[\d\s]*)\s*[-–—]\s*(\d[\d\s]*)\s*(cur)/i` at the
start of `l`. -/
def scanRangeHere (l : Str) : Option (Str × Str) :=
  match l with
  | [] => none
  | c :: _ =>
    if c.isDigit then
      let grp1 := l.takeWhile inNumCls
      let after1 := l.dropWhile inNumCls
      match after1 with
      | d :: rest1 =>
        if isDash d then
          let a2 := rest1.dropWhile isWs
          match a2 with
          | d2 :: _ =>
            if d2.isDigit then
              let grp2 := a2.takeWhile inNumCls
              let after2 := a2.dropWhile inNumCls
              if isCurrencyAt after2 then some (grp1, grp2) else none
            else none
          | [] => none
        else none
      | [] => none
    else none

/-- Leftmost match of the min–max range pattern. -/
def scanRange : Str → Option (Str × Str)
  | [] => none
  | c :: rest =>
    match scanRangeHere (c :: rest) with
    | some g => some g
    | none => scanRange rest

/-- One attempt of `/от\s*(\d[\d\s]*)\s*(cur)/i` at the start of `l`. -/
def scanFromHere (l : Str) : Option Str :=
  match l with
  | c :: c2 :: rest2 =>
    if jsLower c = 'о' ∧ jsLower c2 = 'т' then
      let a := rest2.dropWhile isWs
      match a with
      | d :: _ =>
        if d.isDigit then
          let grp := a.takeWhile inNumCls
          let after := a.dropWhile inNumCls
          if isCurrencyAt after then some grp else none
        else none
      | [] => none
    else none
  | _ => none

/-- Leftmost match of the `от X` (from X) pattern. -/
def scanFrom : Str → Option Str
  | [] => none
  | c :: rest =>
    match scanFromHere (c :: rest) with
    | some g => some g
    | none => scanFrom rest

/-- One attempt of `/до\s*(\d[\d\s]*)\s*(cur)/i` at the start of `l`. -/
def scanUpToHere (l : Str) : Option Str :=
  match l with
  | c :: c2 :: rest2 =>
    if jsLower c = 'д' ∧ jsLower c2 = 'о' then
      let a := rest2.dropWhile isWs
      match a with
      | d :: _ =>
        if d.isDigit then
          let grp := a.takeWhile inNumCls
          let after := a.dropWhile inNumCls
          if isCurrencyAt after then some grp else none
        else none
      | [] => none
    else none
  | _ => none

/-- Leftmost match of the `до X` (up to X) pattern. -/
def scanUpTo : Str → Option Str
  | [] => none
  | c :: rest =>
    match scanUpToHere (c :: rest) with
    | some g => some g
    | none => scanUpTo rest

/-- One attempt of `/(\d[\d\s]*)\s*(cur)/i` at the start of `l`. -/
def scanBareHere (l : Str) : Option Str :=
  match l with
  | [] => none
  | c :: _ =>
    if c.isDigit then
      let grp := l.takeWhile inNumCls
      let after := l.dropWhile inNumCls
      if isCurrencyAt after then some grp else none
    else none

/-- Leftmost match of the bare-figure pattern. -/
def scanBare : Str → Option Str
  | [] => none
  | c :: rest =>
    match scanBareHere (c :: rest) with
    | some g => some g
    | none => scanBare rest

/-- `HHParser.parseSalary`.  The pattern loop tries the four regexes in
order; `match[2] && match[3]` are both truthy exactly for the range
pattern (its second figure and currency captures), each other pattern
leaving `match[3]` undefined; then the branch on
`cleanSalary.includes('от')` / `includes('до')` picks min-only,
max-only, or min = max. -/
def parseSalary (salary : Option Str) : Option SalaryRange :=
  match salary with
  | none => none
  | some s =>
    if s.isEmpty then none
    else
      let cleanSalary := jsTrim (collapseWs s)
      match scanRange cleanSalary with
      | some (n1, n2) =>
        some ⟨some (.jnum (parseNum n1)), some (.jnum (parseNum n2)),
          .jstr (S "RUB"), .MONTH⟩
      | none =>
        match (scanFrom cleanSalary).orElse
            (fun _ => (scanUpTo cleanSalary).orElse
              (fun _ => scanBare cleanSalary)) with
        | some n =>
          if jsIncludes cleanSalary (S "от") then
            some ⟨some (.jnum (parseNum n)), none, .jstr (S "RUB"), .MONTH⟩
          else if jsIncludes cleanSalary (S "до") then
            some ⟨none, some (.jnum (parseNum n)), .jstr (S "RUB"), .MONTH⟩
          else
            some ⟨some (.jnum (parseNum n)), some (.jnum (parseNum n)),
              .jstr (S "RUB"), .MONTH⟩
        | none => none

/-! ### Toolkit for reasoning about the salary scanners -/

/-- No whitespace character is immediately followed by another. -/
def noWsPair : Str → Bool
  | [] => true
  | [_] => true
  | a :: b :: t => !(isWs a && isWs b) && noWsPair (b :: t)

lemma noWsPair_tail {c : Char} {rest : Str}
    (h : noWsPair (c :: rest) = true) : noWsPair rest = true := by
  cases rest with
  | nil => rfl
  | cons b t =>
    simp only [noWsPair, Bool.and_eq_true] at h
    exact h.2

lemma noWsPair_head {c b : Char} {t : Str}
    (h : noWsPair (c :: b :: t) = true) (hc : isWs c = true) :
    isWs b = false := by
  simp only [noWsPair, Bool.and_eq_true, Bool.not_eq_true'] at h
  have h1 := h.1
  rw [hc] at h1
  simpa using h1

lemma noWsPair_append {l1 l2 : Str} (h1 : noWsPair l1 = true)
    (h2 : noWsPair l2 = true)
    (hb : ∀ a b, l1.getLast? = some a → l2.head? = some b →
      (isWs a && isWs b) = false) :
    noWsPair (l1 ++ l2) = true := by
  induction l1 with
  | nil => simpa
  | cons x xs ih =>
    cases xs with
    | nil =>
      cases l2 with
      | nil => rfl
      | cons y t =>
        simp only [List.singleton_append, noWsPair, Bool.and_eq_true,
          Bool.not_eq_true']
        have hxy := hb x y rfl rfl
        exact ⟨hxy, h2⟩
    | cons y ys =>
      simp only [List.cons_append, noWsPair, Bool.and_eq_true] at h1 ⊢
      refine ⟨h1.1, ?_⟩
      exact ih h1.2 (fun a b ha hb' => hb a b (by simpa using ha) hb')

lemma collapseWsAux_id :
    ∀ l : Str, (∀ c ∈ l, isWs c = true → c = ' ') → noWsPair l = true →
      collapseWsAux false l = l ∧
      ((∀ c, l.head? = some c → isWs c = false) → collapseWsAux true l = l) := by
  intro l
  induction l with
  | nil => exact fun _ _ => ⟨rfl, fun _ => rfl⟩
  | cons c rest ih =>
    intro hsp hnp
    obtain ⟨ih1, ih2⟩ := ih (fun x hx => hsp x (List.mem_cons_of_mem c hx))
      (noWsPair_tail hnp)
    constructor
    · by_cases hc : isWs c = true
      · have hcsp : c = ' ' := hsp c (List.mem_cons_self c rest) hc
        have hrest : collapseWsAux true rest = rest := by
          refine ih2 ?_
          intro b hb
          cases rest with
          | nil => cases hb
          | cons y t =>
            cases hb
            exact noWsPair_head hnp hc
        subst hcsp
        simp [collapseWsAux, hc, hrest]
      · rw [Bool.not_eq_true] at hc
        simp [collapseWsAux, hc, ih1]
    · intro hhead
      have hc := hhead c rfl
      simp [collapseWsAux, hc, ih1]

/-- `collapseWs` is the identity on single-space-separated text. -/
lemma collapseWs_id {l : Str} (hsp : ∀ c ∈ l, isWs c = true → c = ' ')
    (hnp : noWsPair l = true) : collapseWs l = l :=
  (collapseWsAux_id l hsp hnp).1

lemma dropWhile_id_of_head {p : Char → Bool} {l : Str}
    (h : ∀ c, l.head? = some c → p c = false) : l.dropWhile p = l := by
  cases l with
  | nil => rfl
  | cons c t => simp [List.dropWhile_cons, h c rfl]

/-- `jsTrim` is the identity when both ends are not whitespace. -/
lemma jsTrim_id {l : Str} (hh : ∀ c, l.head? = some c → isWs c = false)
    (hl : ∀ c, l.getLast? = some c → isWs c = false) : jsTrim l = l := by
  unfold jsTrim
  rw [dropWhile_id_of_head hh,
    dropWhile_id_of_head (by simpa using hl), List.reverse_reverse]

lemma takeWhile_append_all {p : Char → Bool} {l1 l2 : Str}
    (h : ∀ c ∈ l1, p c = true) :
    (l1 ++ l2).takeWhile p = l1 ++ l2.takeWhile p := by
  induction l1 with
  | nil => rfl
  | cons c t ih =>
    simp [List.takeWhile_cons, h c (List.mem_cons_self c t),
      ih (fun x hx => h x (List.mem_cons_of_mem c hx))]

lemma dropWhile_append_all {p : Char → Bool} {l1 l2 : Str}
    (h : ∀ c ∈ l1, p c = true) :
    (l1 ++ l2).dropWhile p = l2.dropWhile p := by
  induction l1 with
  | nil => rfl
  | cons c t ih =>
    simp [List.dropWhile_cons, h c (List.mem_cons_self c t),
      ih (fun x hx => h x (List.mem_cons_of_mem c hx))]

lemma takeWhile_nil_of_head {p : Char → Bool} {l : Str}
    (h : ∀ c, l.head? = some c → p c = false) : l.takeWhile p = [] := by
  cases l with
  | nil => rfl
  | cons c t => simp [List.takeWhile_cons, h c rfl]

/-- `jsIncludes` decides substring containment. -/
lemma jsIncludes_spec {l n : Str} :
    jsIncludes l n = true ↔ n <:+: l := by
  induction l with
  | nil => simp [jsIncludes, List.isEmpty_iff]
  | cons c t ih =>
    simp [jsIncludes, List.isPrefixOf_iff_prefix, ih, List.infix_cons_iff]

/-- The decimal digits. -/
def digitChars : Str := S "0123456789"

/-- A well-formed salary figure: a non-empty string of decimal digits
and single-space thousands separators, starting and ending with a
digit. -/
structure FigWF (ds : Str) : Prop where
  nonempty : ds ≠ []
  chars : ∀ c ∈ ds, c ∈ digitChars ∨ c = ' '
  headDigit : ∀ c, ds.head? = some c → c ∈ digitChars
  lastDigit : ∀ c, ds.getLast? = some c → c ∈ digitChars
  noPair : noWsPair ds = true

lemma digitChar_facts : ∀ c ∈ digitChars,
    c.isDigit = true ∧ isWs c = false ∧ inNumCls c = true ∧
      isDash c = false ∧ jsLower c ≠ 'т' ∧ jsLower c ≠ 'д' ∧ c ≠ ' ' := by
  decide

lemma figWF_mem_facts {ds : Str} (h : FigWF ds) :
    (∀ c ∈ ds, inNumCls c = true) ∧ (∀ c ∈ ds, isWs c = true → c = ' ') ∧
      (∀ c ∈ ds, jsLower c ≠ 'т') ∧ (∀ c ∈ ds, jsLower c ≠ 'д') ∧
      (∀ c ∈ ds, isDash c = false) := by
  refine ⟨?_, ?_, ?_, ?_, ?_⟩
  · intro c hc
    rcases h.chars c hc with hd | rfl
    · exact (digitChar_facts c hd).2.2.1
    · decide
  · intro c hc hws
    rcases h.chars c hc with hd | rfl
    · rw [(digitChar_facts c hd).2.1] at hws; cases hws
    · rfl
  · intro c hc
    rcases h.chars c hc with hd | rfl
    · exact (digitChar_facts c hd).2.2.2.2.1
    · decide
  · intro c hc
    rcases h.chars c hc with hd | rfl
    · exact (digitChar_facts c hd).2.2.2.2.2.1
    · decide
  · intro c hc
    rcases h.chars c hc with hd | rfl
    · exact (digitChar_facts c hd).2.2.2.1
    · decide

lemma dropWhile_subset {p : Char → Bool} {l : Str} {c : Char}
    (h : c ∈ l.dropWhile p) : c ∈ l :=
  (List.dropWhile_suffix p).sublist.subset h

lemma scanRangeHere_none {l : Str}
    (h : (∀ c ∈ l, isDash c = false) ∨ (∀ c ∈ l, c.isDigit = false)) :
    scanRangeHere l = none := by
  cases l with
  | nil => rfl
  | cons c rest =>
    simp only [scanRangeHere]
    rcases h with h | h
    · by_cases hd : c.isDigit = true
      · rw [if_pos hd]
        cases hA : (c :: rest).dropWhile inNumCls with
        | nil => rfl
        | cons d r1 =>
          have hdm : d ∈ c :: rest := dropWhile_subset (hA ▸ List.mem_cons_self d r1)
          simp [h d hdm]
      · rw [if_neg hd]
    · rw [if_neg (by simp [h c (List.mem_cons_self c rest)])]

lemma scanRange_none {l : Str}
    (h : (∀ c ∈ l, isDash c = false) ∨ (∀ c ∈ l, c.isDigit = false)) :
    scanRange l = none := by
  induction l with
  | nil => rfl
  | cons c rest ih =>
    have htail : (∀ x ∈ rest, isDash x = false) ∨
        (∀ x ∈ rest, x.isDigit = false) := by
      rcases h with h | h
      · exact Or.inl fun x hx => h x (List.mem_cons_of_mem c hx)
      · exact Or.inr fun x hx => h x (List.mem_cons_of_mem c hx)
    simp only [scanRange, scanRangeHere_none h, ih htail]

lemma scanFromHere_none {l : Str}
    (h : (∀ c ∈ l, jsLower c ≠ 'т') ∨ (∀ c ∈ l, c.isDigit = false)) :
    scanFromHere l = none := by
  match l with
  | [] => rfl
  | [_] => rfl
  | c :: c2 :: rest2 =>
    simp only [scanFromHere]
    rcases h with h | h
    · rw [if_neg]
      rintro ⟨-, h2⟩
      exact h c2 (List.mem_cons_of_mem c (List.mem_cons_self c2 rest2)) h2
    · by_cases hc : jsLower c = 'о' ∧ jsLower c2 = 'т'
      · rw [if_pos hc]
        cases hA : rest2.dropWhile isWs with
        | nil => rfl
        | cons d r =>
          have hdm : d ∈ c :: c2 :: rest2 :=
            List.mem_cons_of_mem c (List.mem_cons_of_mem c2
              (dropWhile_subset (hA ▸ List.mem_cons_self d r)))
          simp [h d hdm]
      · rw [if_neg hc]

lemma scanFrom_none {l : Str}
    (h : (∀ c ∈ l, jsLower c ≠ 'т') ∨ (∀ c ∈ l, c.isDigit = false)) :
    scanFrom l = none := by
  induction l with
  | nil => rfl
  | cons c rest ih =>
    have htail : (∀ x ∈ rest, jsLower x ≠ 'т') ∨
        (∀ x ∈ rest, x.isDigit = false) := by
      rcases h with h | h
      · exact Or.inl fun x hx => h x (List.mem_cons_of_mem c hx)
      · exact Or.inr fun x hx => h x (List.mem_cons_of_mem c hx)
    simp only [scanFrom, scanFromHere_none h, ih htail]

lemma scanUpToHere_none {l : Str}
    (h : (∀ c ∈ l, jsLower c ≠ 'д') ∨ (∀ c ∈ l, c.isDigit = false)) :
    scanUpToHere l = none := by
  match l with
  | [] => rfl
  | [_] => rfl
  | c :: c2 :: rest2 =>
    simp only [scanUpToHere]
    rcases h with h | h
    · rw [if_neg]
      rintro ⟨h1, -⟩
      exact h c (List.mem_cons_self c _) h1
    · by_cases hc : jsLower c = 'д' ∧ jsLower c2 = 'о'
      · rw [if_pos hc]
        cases hA : rest2.dropWhile isWs with
        | nil => rfl
        | cons d r =>
          have hdm : d ∈ c :: c2 :: rest2 :=
            List.mem_cons_of_mem c (List.mem_cons_of_mem c2
              (dropWhile_subset (hA ▸ List.mem_cons_self d r)))
          simp [h d hdm]
      · rw [if_neg hc]

lemma scanUpTo_none {l : Str}
    (h : (∀ c ∈ l, jsLower c ≠ 'д') ∨ (∀ c ∈ l, c.isDigit = false)) :
    scanUpTo l = none := by
  induction l with
  | nil => rfl
  | cons c rest ih =>
    have htail : (∀ x ∈ rest, jsLower x ≠ 'д') ∨
        (∀ x ∈ rest, x.isDigit = false) := by
      rcases h with h | h
      · exact Or.inl fun x hx => h x (List.mem_cons_of_mem c hx)
      · exact Or.inr fun x hx => h x (List.mem_cons_of_mem c hx)
    simp only [scanUpTo, scanUpToHere_none h, ih htail]

lemma scanBareHere_none {l : Str} (h : ∀ c ∈ l, c.isDigit = false) :
    scanBareHere l = none := by
  cases l with
  | nil => rfl
  | cons c rest =>
    simp only [scanBareHere]
    rw [if_neg (by simp [h c (List.mem_cons_self c rest)])]

lemma scanBare_none {l : Str} (h : ∀ c ∈ l, c.isDigit = false) :
    scanBare l = none := by
  induction l with
  | nil => rfl
  | cons c rest ih =>
    simp only [scanBare, scanBareHere_none h,
      ih fun x hx => h x (List.mem_cons_of_mem c hx)]

lemma takeWhile_all {p : Char → Bool} {l : Str} (h : ∀ c ∈ l, p c = true) :
    l.takeWhile p = l := by
  induction l with
  | nil => rfl
  | cons c t ih =>
    simp [List.takeWhile_cons, h c (List.mem_cons_self c t),
      ih fun x hx => h x (List.mem_cons_of_mem c hx)]

/-- Scanning a figure followed by a space and a non-`[\d\s]` tail: the
captured group is the figure plus the trailing space; the scan resumes
at the tail. -/
lemma fig_scan {ds cur : Str} (hds : FigWF ds)
    (hcur : ∀ c, cur.head? = some c → inNumCls c = false) :
    (ds ++ ' ' :: cur).takeWhile inNumCls = ds ++ [' '] ∧
      (ds ++ ' ' :: cur).dropWhile inNumCls = cur := by
  have hall := (figWF_mem_facts hds).1
  constructor
  · rw [takeWhile_append_all hall, List.takeWhile_cons,
      if_pos (by decide : inNumCls ' ' = true), takeWhile_nil_of_head hcur]
  · rw [dropWhile_append_all hall, List.dropWhile_cons,
      if_pos (by decide : inNumCls ' ' = true), dropWhile_id_of_head hcur]

/-- The claim-side value of a figure: the base-10 value of its digits,
thousands separators stripped. -/
def figValue (ds : Str) : Int := digitsVal (ds.filter Char.isDigit)

lemma parseNum_fig {ds : Str} (h : FigWF ds) :
    parseNum (ds ++ [' ']) = figValue ds := by
  unfold parseNum figValue
  rw [List.filter_append]
  rw [show List.filter (fun c => !isWs c) [' '] = [] from rfl, List.append_nil]
  rw [List.filter_congr (fun c hc => ?_), takeWhile_all (fun c hc => ?_)]
  · exact (List.mem_filter.mp hc).2
  · rcases h.chars c hc with hd | rfl
    · rw [(digitChar_facts c hd).2.1, (digitChar_facts c hd).1]; rfl
    · rfl

/-- The currency tokens of the salary patterns (with their optional
trailing dots). -/
def curToks : List Str := [S "₽", S "руб", S "rub", S "руб.", S "р."]

lemma curTok_facts {cur : Str} (h : cur ∈ curToks) :
    isCurrencyAt cur = true ∧
      (∀ c, cur.head? = some c → inNumCls c = false) ∧
      (∀ c ∈ cur, jsLower c ≠ 'т' ∧ jsLower c ≠ 'д' ∧ isDash c = false ∧
        c.isDigit = false ∧ isWs c = false) ∧
      cur ≠ [] ∧
      (∀ c, cur.getLast? = some c → isWs c = false) ∧
      noWsPair (' ' :: cur) = true := by
  fin_cases h <;>
    refine ⟨by decide, by decide, by decide, by decide, by decide, by decide⟩

lemma figWF_cons {ds : Str} (hds : FigWF ds) :
    ∃ d t, ds = d :: t ∧ d.isDigit = true ∧ isWs d = false := by
  cases ds with
  | nil => exact absurd rfl hds.nonempty
  | cons d t =>
    have hd := hds.headDigit d rfl
    exact ⟨d, t, rfl, (digitChar_facts d hd).1, (digitChar_facts d hd).2.1⟩

lemma scanFromHere_success {ds cur : Str} (hds : FigWF ds)
    (hcur : cur ∈ curToks) :
    scanFromHere ('о' :: 'т' :: ' ' :: (ds ++ ' ' :: cur)) =
      some (ds ++ [' ']) := by
  obtain ⟨hcc, hhead, -, -, -, -⟩ := curTok_facts hcur
  obtain ⟨d, t, rfl, hdD, hdW⟩ := figWF_cons hds
  have hfig := fig_scan hds hhead
  simp only [scanFromHere,
    if_pos (by decide : jsLower 'о' = 'о' ∧ jsLower 'т' = 'т')]
  rw [show List.dropWhile isWs (' ' :: (d :: t ++ ' ' :: cur)) =
      d :: (t ++ ' ' :: cur) by
    rw [List.dropWhile_cons, if_pos (by decide : isWs ' ' = true),
      List.cons_append, List.dropWhile_cons]
    simp [hdW]]
  simp only [List.cons_append] at hfig
  dsimp only
  rw [if_pos hdD, hfig.1, hfig.2, if_pos hcc]
  simp

lemma scanUpToHere_success {ds cur : Str} (hds : FigWF ds)
    (hcur : cur ∈ curToks) :
    scanUpToHere ('д' :: 'о' :: ' ' :: (ds ++ ' ' :: cur)) =
      some (ds ++ [' ']) := by
  obtain ⟨hcc, hhead, -, -, -, -⟩ := curTok_facts hcur
  obtain ⟨d, t, rfl, hdD, hdW⟩ := figWF_cons hds
  have hfig := fig_scan hds hhead
  simp only [scanUpToHere,
    if_pos (by decide : jsLower 'д' = 'д' ∧ jsLower 'о' = 'о')]
  rw [show List.dropWhile isWs (' ' :: (d :: t ++ ' ' :: cur)) =
      d :: (t ++ ' ' :: cur) by
    rw [List.dropWhile_cons, if_pos (by decide : isWs ' ' = true),
      List.cons_append, List.dropWhile_cons]
    simp [hdW]]
  simp only [List.cons_append] at hfig
  dsimp only
  rw [if_pos hdD, hfig.1, hfig.2, if_pos hcc]
  simp

lemma scanBareHere_success {ds cur : Str} (hds : FigWF ds)
    (hcur : cur ∈ curToks) :
    scanBareHere (ds ++ ' ' :: cur) = some (ds ++ [' ']) := by
  obtain ⟨hcc, hhead, -, -, -, -⟩ := curTok_facts hcur
  obtain ⟨d, t, rfl, hdD, hdW⟩ := figWF_cons hds
  have hfig := fig_scan hds hhead
  simp only [List.cons_append] at hfig ⊢
  simp only [scanBareHere]
  rw [if_pos hdD, hfig.1, hfig.2, if_pos hcc]

lemma scanRangeHere_success {ds1 ds2 cur : Str} (h1 : FigWF ds1)
    (h2 : FigWF ds2) (hcur : cur ∈ curToks) :
    scanRangeHere (ds1 ++ ' ' :: '-' :: ' ' :: (ds2 ++ ' ' :: cur)) =
      some (ds1 ++ [' '], ds2 ++ [' ']) := by
  obtain ⟨hcc, hhead, -, -, -, -⟩ := curTok_facts hcur
  obtain ⟨d1, t1, rfl, hd1D, hd1W⟩ := figWF_cons h1
  obtain ⟨d2, t2, rfl, hd2D, hd2W⟩ := figWF_cons h2
  have hall1 := (figWF_mem_facts h1).1
  have hfig2 := fig_scan h2 hhead
  have htake1 : ((d1 :: t1) ++ ' ' :: '-' :: ' ' :: (d2 :: t2 ++ ' ' :: cur)).takeWhile
      inNumCls = (d1 :: t1) ++ [' '] := by
    rw [takeWhile_append_all hall1, List.takeWhile_cons,
      if_pos (by decide : inNumCls ' ' = true), List.takeWhile_cons,
      if_neg (by decide : ¬inNumCls '-' = true)]
  have hdrop1 : ((d1 :: t1) ++ ' ' :: '-' :: ' ' :: (d2 :: t2 ++ ' ' :: cur)).dropWhile
      inNumCls = '-' :: ' ' :: (d2 :: t2 ++ ' ' :: cur) := by
    rw [dropWhile_append_all hall1, List.dropWhile_cons,
      if_pos (by decide : inNumCls ' ' = true), List.dropWhile_cons,
      if_neg (by decide : ¬inNumCls '-' = true)]
  have ha2 : List.dropWhile isWs (' ' :: (d2 :: t2 ++ ' ' :: cur)) =
      d2 :: (t2 ++ ' ' :: cur) := by
    rw [List.dropWhile_cons, if_pos (by decide : isWs ' ' = true),
      List.cons_append, List.dropWhile_cons]
    simp [hd2W]
  simp only [List.cons_append] at htake1 hdrop1 hfig2 ha2 ⊢
  simp only [scanRangeHere]
  rw [if_pos hd1D, hdrop1]
  dsimp only
  rw [if_pos (by decide : isDash '-' = true), ha2]
  dsimp only
  rw [if_pos hd2D, hfig2.1, hfig2.2, if_pos hcc, htake1]

/-- `replace(/\s+/g,' ').trim()` is the identity on well-spaced text. -/
lemma clean_id {l : Str} (hsp : ∀ c ∈ l, isWs c = true → c = ' ')
    (hnp : noWsPair l = true)
    (hh : ∀ c, l.head? = some c → isWs c = false)
    (hl : ∀ c, l.getLast? = some c → isWs c = false) :
    jsTrim (collapseWs l) = l := by
  rw [collapseWs_id hsp hnp]
  exact jsTrim_id hh hl

lemma fig_tail_facts {ds cur : Str} (hds : FigWF ds) (hcur : cur ∈ curToks) :
    (∀ c ∈ ds ++ ' ' :: cur, isWs c = true → c = ' ') ∧
      noWsPair (ds ++ ' ' :: cur) = true ∧
      (∀ c, (ds ++ ' ' :: cur).getLast? = some c → isWs c = false) ∧
      (∀ c, (ds ++ ' ' :: cur).head? = some c → isWs c = false) ∧
      (∀ c ∈ ds ++ ' ' :: cur, jsLower c ≠ 'т') ∧
      (∀ c ∈ ds ++ ' ' :: cur, jsLower c ≠ 'д') ∧
      (∀ c ∈ ds ++ ' ' :: cur, isDash c = false) := by
  obtain ⟨-, -, hchars, hcne, hclast, hcpair⟩ := curTok_facts hcur
  obtain ⟨hnum, hws, hT, hD, hdash⟩ := figWF_mem_facts hds
  refine ⟨?_, ?_, ?_, ?_, ?_, ?_, ?_⟩
  · intro c hc
    rcases List.mem_append.mp hc with h | h
    · exact hws c h
    · rcases List.mem_cons.mp h with rfl | h
      · exact fun _ => rfl
      · intro habs
        rw [(hchars c h).2.2.2.2] at habs
        cases habs
  · refine noWsPair_append hds.noPair hcpair ?_
    intro a b ha hb
    have : isWs a = false := by
      have := hds.lastDigit a ha
      exact (digitChar_facts a this).2.1
    rw [this]
    rfl
  · intro c hc
    rw [List.getLast?_append_of_ne_nil _ (by simp : (' ' :: cur) ≠ []),
      show (' ' :: cur) = [' '] ++ cur from rfl,
      List.getLast?_append_of_ne_nil _ hcne] at hc
    exact hclast c hc
  · intro c hc
    obtain ⟨d, t, rfl, -, hdW⟩ := figWF_cons hds
    rw [List.cons_append, List.head?_cons] at hc
    cases hc
    exact hdW
  · intro c hc
    rcases List.mem_append.mp hc with h | h
    · exact hT c h
    · rcases List.mem_cons.mp h with rfl | h
      · decide
      · exact (hchars c h).1
  · intro c hc
    rcases List.mem_append.mp hc with h | h
    · exact hD c h
    · rcases List.mem_cons.mp h with rfl | h
      · decide
      · exact (hchars c h).2.1
  · intro c hc
    rcases List.mem_append.mp hc with h | h
    · exact hdash c h
    · rcases List.mem_cons.mp h with rfl | h
      · decide
      · exact (hchars c h).2.2.1

/-- `parseSalary` on the `от X cur` (from) form. -/
lemma parseSalary_from {ds cur : Str} (hds : FigWF ds) (hcur : cur ∈ curToks) :
    parseSalary (some (S "от " ++ ds ++ ' ' :: cur)) =
      some ⟨some (.jnum (figValue ds)), none, .jstr (S "RUB"), .MONTH⟩ := by
  obtain ⟨hspX, hnpX, hlastX, hheadX, hnoT, hnoD, hnoDash⟩ :=
    fig_tail_facts hds hcur
  have hform : S "от " ++ ds ++ ' ' :: cur =
      'о' :: 'т' :: ' ' :: (ds ++ ' ' :: cur) := by
    rw [show S "от " = ['о', 'т', ' '] from rfl]
    simp
  rw [hform]
  have hclean : jsTrim (collapseWs ('о' :: 'т' :: ' ' :: (ds ++ ' ' :: cur))) =
      'о' :: 'т' :: ' ' :: (ds ++ ' ' :: cur) := by
    refine clean_id ?_ ?_ ?_ ?_
    · intro c hc
      rcases List.mem_cons.mp hc with rfl | hc
      · intro h; cases h
      rcases List.mem_cons.mp hc with rfl | hc
      · intro h; cases h
      rcases List.mem_cons.mp hc with rfl | hc
      · exact fun _ => rfl
      · exact hspX c hc
    · have hb : ∀ a b, (['о', 'т', ' '] : Str).getLast? = some a →
          (ds ++ ' ' :: cur).head? = some b → (isWs a && isWs b) = false := by
        intro a b ha hb
        rw [hheadX b hb, Bool.and_false]
      simpa using noWsPair_append (by decide) hnpX hb
    · intro c hc
      cases hc
      decide
    · intro c hc
      rw [show ('о' :: 'т' :: ' ' :: (ds ++ ' ' :: cur)) =
          ['о', 'т', ' '] ++ (ds ++ ' ' :: cur) from rfl,
        List.getLast?_append_of_ne_nil _ (by simp)] at hc
      exact hlastX c hc
  have hdash : ∀ c ∈ 'о' :: 'т' :: ' ' :: (ds ++ ' ' :: cur),
      isDash c = false := by
    intro c hc
    rcases List.mem_cons.mp hc with rfl | hc
    · decide
    rcases List.mem_cons.mp hc with rfl | hc
    · decide
    rcases List.mem_cons.mp hc with rfl | hc
    · decide
    · exact hnoDash c hc
  have hfrom : scanFrom ('о' :: 'т' :: ' ' :: (ds ++ ' ' :: cur)) =
      some (ds ++ [' ']) := by
    simp only [scanFrom, scanFromHere_success hds hcur]
  have hinc : jsIncludes ('о' :: 'т' :: ' ' :: (ds ++ ' ' :: cur))
      (S "от") = true := by
    rw [jsIncludes_spec]
    exact ⟨[], ' ' :: (ds ++ ' ' :: cur), by simp [Str.S]⟩
  simp only [parseSalary]
  rw [if_neg (by simp), hclean, scanRange_none (Or.inl hdash), hfrom]
  dsimp only [Option.orElse]
  rw [if_pos hinc, parseNum_fig hds]

/-- A needle containing a character absent from the haystack is not a
substring. -/
lemma jsIncludes_false_of_not_mem {l n : Str} {x : Char} (hx : x ∈ n)
    (h : ∀ c ∈ l, c ≠ x) : jsIncludes l n = false := by
  cases hb : jsIncludes l n
  · rfl
  · exact absurd rfl (h x ((jsIncludes_spec.mp hb).sublist.subset hx))

/-- Lowercase-stable characters: `jsLower c ≠ t` rules out `c = t`. -/
lemma ne_of_jsLower_ne {c t : Char} (ht : jsLower t = t)
    (h : jsLower c ≠ t) : c ≠ t := fun e => h (by rw [e, ht])

/-- `parseSalary` on the `до X cur` (up to) form. -/
lemma parseSalary_upTo {ds cur : Str} (hds : FigWF ds) (hcur : cur ∈ curToks) :
    parseSalary (some (S "до " ++ ds ++ ' ' :: cur)) =
      some ⟨none, some (.jnum (figValue ds)), .jstr (S "RUB"), .MONTH⟩ := by
  obtain ⟨hspX, hnpX, hlastX, hheadX, hnoT, hnoD, hnoDash⟩ :=
    fig_tail_facts hds hcur
  have hform : S "до " ++ ds ++ ' ' :: cur =
      'д' :: 'о' :: ' ' :: (ds ++ ' ' :: cur) := by
    rw [show S "до " = ['д', 'о', ' '] from rfl]
    simp
  rw [hform]
  have hclean : jsTrim (collapseWs ('д' :: 'о' :: ' ' :: (ds ++ ' ' :: cur))) =
      'д' :: 'о' :: ' ' :: (ds ++ ' ' :: cur) := by
    refine clean_id ?_ ?_ ?_ ?_
    · intro c hc
      rcases List.mem_cons.mp hc with rfl | hc
      · intro h; cases h
      rcases List.mem_cons.mp hc with rfl | hc
      · intro h; cases h
      rcases List.mem_cons.mp hc with rfl | hc
      · exact fun _ => rfl
      · exact hspX c hc
    · have hb : ∀ a b, (['д', 'о', ' '] : Str).getLast? = some a →
          (ds ++ ' ' :: cur).head? = some b → (isWs a && isWs b) = false := by
        intro a b ha hb
        rw [hheadX b hb, Bool.and_false]
      simpa using noWsPair_append (by decide) hnpX hb
    · intro c hc
      cases hc
      decide
    · intro c hc
      rw [show ('д' :: 'о' :: ' ' :: (ds ++ ' ' :: cur)) =
          ['д', 'о', ' '] ++ (ds ++ ' ' :: cur) from rfl,
        List.getLast?_append_of_ne_nil _ (by simp)] at hc
      exact hlastX c hc
  have hdash : ∀ c ∈ 'д' :: 'о' :: ' ' :: (ds ++ ' ' :: cur),
      isDash c = false := by
    intro c hc
    rcases List.mem_cons.mp hc with rfl | hc
    · decide
    rcases List.mem_cons.mp hc with rfl | hc
    · decide
    rcases List.mem_cons.mp hc with rfl | hc
    · decide
    · exact hnoDash c hc
  have hnoTfull : ∀ c ∈ 'д' :: 'о' :: ' ' :: (ds ++ ' ' :: cur),
      jsLower c ≠ 'т' := by
    intro c hc
    rcases List.mem_cons.mp hc with rfl | hc
    · decide
    rcases List.mem_cons.mp hc with rfl | hc
    · decide
    rcases List.mem_cons.mp hc with rfl | hc
    · decide
    · exact hnoT c hc
  have hupto : scanUpTo ('д' :: 'о' :: ' ' :: (ds ++ ' ' :: cur)) =
      some (ds ++ [' ']) := by
    simp only [scanUpTo, scanUpToHere_success hds hcur]
  have hincOt : jsIncludes ('д' :: 'о' :: ' ' :: (ds ++ ' ' :: cur))
      (S "от") = false := by
    refine jsIncludes_false_of_not_mem (x := 'т') (by decide) ?_
    intro c hc
    exact ne_of_jsLower_ne (by decide) (hnoTfull c hc)
  have hincDo : jsIncludes ('д' :: 'о' :: ' ' :: (ds ++ ' ' :: cur))
      (S "до") = true := by
    rw [jsIncludes_spec]
    exact ⟨[], ' ' :: (ds ++ ' ' :: cur), by simp [Str.S]⟩
  simp only [parseSalary]
  rw [if_neg (by simp), hclean, scanRange_none (Or.inl hdash),
    scanFrom_none (Or.inl hnoTfull), hupto]
  dsimp only [Option.orElse]
  rw [if_neg (by simp [hincOt]), if_pos hincDo, parseNum_fig hds]

/-- `parseSalary` on the bare-figure form. -/
lemma parseSalary_bare {ds cur : Str} (hds : FigWF ds) (hcur : cur ∈ curToks) :
    parseSalary (some (ds ++ ' ' :: cur)) =
      some ⟨some (.jnum (figValue ds)), some (.jnum (figValue ds)),
        .jstr (S "RUB"), .MONTH⟩ := by
  obtain ⟨hspX, hnpX, hlastX, hheadX, hnoT, hnoD, hnoDash⟩ :=
    fig_tail_facts hds hcur
  obtain ⟨d, t, hdst, hdD, hdW⟩ := figWF_cons hds
  have hclean : jsTrim (collapseWs (ds ++ ' ' :: cur)) = ds ++ ' ' :: cur :=
    clean_id hspX hnpX hheadX hlastX
  have hbare : scanBare (ds ++ ' ' :: cur) = some (ds ++ [' ']) := by
    subst hdst
    have := scanBareHere_success hds hcur
    simp only [List.cons_append] at this ⊢
    simp only [scanBare, this]
  have hincOt : jsIncludes (ds ++ ' ' :: cur) (S "от") = false := by
    refine jsIncludes_false_of_not_mem (x := 'т') (by decide) ?_
    intro c hc
    exact ne_of_jsLower_ne (by decide) (hnoT c hc)
  have hincDo : jsIncludes (ds ++ ' ' :: cur) (S "до") = false := by
    refine jsIncludes_false_of_not_mem (x := 'д') (by decide) ?_
    intro c hc
    exact ne_of_jsLower_ne (by decide) (hnoD c hc)
  have hne : (ds ++ ' ' :: cur).isEmpty = false := by
    subst hdst
    rfl
  simp only [parseSalary]
  rw [if_neg (by simp [hne]), hclean, scanRange_none (Or.inl hnoDash),
    scanFrom_none (Or.inl hnoT), scanUpTo_none (Or.inl hnoD), hbare]
  dsimp only [Option.orElse]
  rw [if_neg (by simp [hincOt]), if_neg (by simp [hincDo]), parseNum_fig hds]

/-- `parseSalary` on the explicit `X - Y cur` range form. -/
lemma parseSalary_range {ds1 ds2 cur : Str} (h1 : FigWF ds1) (h2 : FigWF ds2)
    (hcur : cur ∈ curToks) :
    parseSalary (some (ds1 ++ ' ' :: '-' :: ' ' :: (ds2 ++ ' ' :: cur))) =
      some ⟨some (.jnum (figValue ds1)), some (.jnum (figValue ds2)),
        .jstr (S "RUB"), .MONTH⟩ := by
  obtain ⟨hspY, hnpY, hlastY, hheadY, -, -, -⟩ := fig_tail_facts h2 hcur
  obtain ⟨hnum1, hws1, -, -, -⟩ := figWF_mem_facts h1
  obtain ⟨d1, t1, hdst1, hd1D, hd1W⟩ := figWF_cons h1
  have hclean :
      jsTrim (collapseWs (ds1 ++ ' ' :: '-' :: ' ' :: (ds2 ++ ' ' :: cur))) =
        ds1 ++ ' ' :: '-' :: ' ' :: (ds2 ++ ' ' :: cur) := by
    refine clean_id ?_ ?_ ?_ ?_
    · intro c hc
      rcases List.mem_append.mp hc with h | hc
      · exact hws1 c h
      rcases List.mem_cons.mp hc with rfl | hc
      · exact fun _ => rfl
      rcases List.mem_cons.mp hc with rfl | hc
      · intro h; cases h
      rcases List.mem_cons.mp hc with rfl | hc
      · exact fun _ => rfl
      · exact hspY c hc
    · have hmid : noWsPair (' ' :: '-' :: ' ' :: (ds2 ++ ' ' :: cur)) = true := by
        have hb : ∀ a b, ([' ', '-', ' '] : Str).getLast? = some a →
            (ds2 ++ ' ' :: cur).head? = some b → (isWs a && isWs b) = false := by
          intro a b ha hb
          rw [hheadY b hb, Bool.and_false]
        simpa using noWsPair_append (by decide) hnpY hb
      refine noWsPair_append h1.noPair hmid ?_
      intro a b ha hb
      have : isWs a = false := by
        have := h1.lastDigit a ha
        exact (digitChar_facts a this).2.1
      rw [this]
      rfl
    · intro c hc
      subst hdst1
      rw [List.cons_append, List.head?_cons] at hc
      cases hc
      exact hd1W
    · intro c hc
      rw [List.getLast?_append_of_ne_nil _ (by simp),
        show (' ' :: '-' :: ' ' :: (ds2 ++ ' ' :: cur)) =
          [' ', '-', ' '] ++ (ds2 ++ ' ' :: cur) from rfl,
        List.getLast?_append_of_ne_nil _ (by simp)] at hc
      exact hlastY c hc
  have hrange :
      scanRange (ds1 ++ ' ' :: '-' :: ' ' :: (ds2 ++ ' ' :: cur)) =
        some (ds1 ++ [' '], ds2 ++ [' ']) := by
    subst hdst1
    have := scanRangeHere_success h1 h2 hcur
    simp only [List.cons_append] at this ⊢
    simp only [scanRange, this]
  have hne : (ds1 ++ ' ' :: '-' :: ' ' :: (ds2 ++ ' ' :: cur)).isEmpty
      = false := by
    subst hdst1
    rfl
  simp only [parseSalary]
  rw [if_neg (by simp [hne]), hclean, hrange]
  dsimp only
  rw [parseNum_fig h1, parseNum_fig h2]

lemma collapseWsAux_chars {l : Str} {c : Char} :
    ∀ {b : Bool}, c ∈ collapseWsAux b l → c ∈ l ∨ c = ' ' := by
  induction l with
  | nil => intro b h; cases h
  | cons x rest ih =>
    intro b h
    by_cases hx : isWs x = true
    · rcases hb : b with _ | _ <;> rw [hb] at h <;>
        simp only [collapseWsAux, hx, if_true] at h
      · rcases List.mem_cons.mp h with rfl | h
        · exact Or.inr rfl
        · rcases ih h with h | h
          · exact Or.inl (List.mem_cons_of_mem x h)
          · exact Or.inr h
      · rcases ih h with h | h
        · exact Or.inl (List.mem_cons_of_mem x h)
        · exact Or.inr h
    · rw [Bool.not_eq_true] at hx
      simp only [collapseWsAux, hx, Bool.false_eq_true, if_false] at h
      rcases List.mem_cons.mp h with rfl | h
      · exact Or.inl (List.mem_cons_self c rest)
      · rcases ih h with h | h
        · exact Or.inl (List.mem_cons_of_mem x h)
        · exact Or.inr h

lemma jsTrim_subset {l : Str} {c : Char} (h : c ∈ jsTrim l) : c ∈ l := by
  unfold jsTrim at h
  rw [List.mem_reverse] at h
  have h2 := dropWhile_subset h
  rw [List.mem_reverse] at h2
  exact dropWhile_subset h2

/-- Claim C8: the hh.ru free-text salary parser recognizes an explicit
min–max range (min and max from the two figures), a `от X` form (min
only), a `до X` form (max only), and a bare figure (min = max), each
tolerating embedded thousands-separator whitespace and any of the
pattern's currency tokens, always with currency "RUB" and period MONTH;
a null or empty input, or a string matching none of the forms (e.g. one
with no digit at all), yields null. -/
theorem C8_parseSalary :
    parseSalary none = none ∧
    parseSalary (some (S "")) = none ∧
    (∀ ds1 ds2 cur : Str, FigWF ds1 → FigWF ds2 → cur ∈ curToks →
      parseSalary (some (ds1 ++ ' ' :: '-' :: ' ' :: (ds2 ++ ' ' :: cur))) =
        some ⟨some (.jnum (figValue ds1)), some (.jnum (figValue ds2)),
          .jstr (S "RUB"), .MONTH⟩) ∧
    (∀ ds cur : Str, FigWF ds → cur ∈ curToks →
      parseSalary (some (S "от " ++ ds ++ ' ' :: cur)) =
        some ⟨some (.jnum (figValue ds)), none, .jstr (S "RUB"), .MONTH⟩) ∧
    (∀ ds cur : Str, FigWF ds → cur ∈ curToks →
      parseSalary (some (S "до " ++ ds ++ ' ' :: cur)) =
        some ⟨none, some (.jnum (figValue ds)), .jstr (S "RUB"), .MONTH⟩) ∧
    (∀ ds cur : Str, FigWF ds → cur ∈ curToks →
      parseSalary (some (ds ++ ' ' :: cur)) =
        some ⟨some (.jnum (figValue ds)), some (.jnum (figValue ds)),
          .jstr (S "RUB"), .MONTH⟩) ∧
    (∀ s : Str, (∀ c ∈ s, c.isDigit = false) → parseSalary (some s) = none) := by
  refine ⟨rfl, rfl, fun ds1 ds2 cur h1 h2 hc => parseSalary_range h1 h2 hc,
    fun ds cur h hc => parseSalary_from h hc,
    fun ds cur h hc => parseSalary_upTo h hc,
    fun ds cur h hc => parseSalary_bare h hc, ?_⟩
  intro s h
  simp only [parseSalary]
  by_cases he : s.isEmpty = true
  · rw [if_pos he]
  · rw [if_neg he]
    have hcl : ∀ c ∈ jsTrim (collapseWs s), c.isDigit = false := by
      intro c hc
      rcases collapseWsAux_chars (jsTrim_subset hc) with h' | rfl
      · exact h c h'
      · rfl
    rw [scanRange_none (Or.inr hcl), scanFrom_none (Or.inr hcl),
      scanUpTo_none (Or.inr hcl), scanBare_none hcl]
    rfl

/-- Claim C8, witness: the four forms at concrete figures and currency
tokens, plus a no-digit input. -/
theorem C8_witness :
    parseSalary (some (S "100 000" ++ ' ' :: '-' :: ' ' ::
        (S "200 000" ++ ' ' :: S "руб"))) =
      some ⟨some (.jnum 100000), some (.jnum 200000),
        .jstr (S "RUB"), .MONTH⟩ ∧
    parseSalary (some (S "от " ++ S "50 000" ++ ' ' :: S "руб.")) =
      some ⟨some (.jnum 50000), none, .jstr (S "RUB"), .MONTH⟩ ∧
    parseSalary (some (S "до " ++ S "70000" ++ ' ' :: S "₽")) =
      some ⟨none, some (.jnum 70000), .jstr (S "RUB"), .MONTH⟩ ∧
    parseSalary (some (S "120000" ++ ' ' :: S "rub")) =
      some ⟨some (.jnum 120000), some (.jnum 120000),
        .jstr (S "RUB"), .MONTH⟩ ∧
    parseSalary (some (S "зарплата не указана")) = none := by
  have wf1 : FigWF (S "100 000") :=
    ⟨by decide, by decide, by decide, by decide, by decide⟩
  have wf2 : FigWF (S "200 000") :=
    ⟨by decide, by decide, by decide, by decide, by decide⟩
  have wf3 : FigWF (S "50 000") :=
    ⟨by decide, by decide, by decide, by decide, by decide⟩
  have wf4 : FigWF (S "70000") :=
    ⟨by decide, by decide, by decide, by decide, by decide⟩
  have wf5 : FigWF (S "120000") :=
    ⟨by decide, by decide, by decide, by decide, by decide⟩
  refine ⟨?_, ?_, ?_, ?_, ?_⟩
  · rw [C8_parseSalary.2.2.1 _ _ _ wf1 wf2 (by decide)]
    rfl
  · rw [C8_parseSalary.2.2.2.1 _ _ wf3 (by decide)]
    rfl
  · rw [C8_parseSalary.2.2.2.2.1 _ _ wf4 (by decide)]
    rfl
  · rw [C8_parseSalary.2.2.2.2.2.1 _ _ wf5 (by decide)]
    rfl
  · exact C8_parseSalary.2.2.2.2.2.2 _ (by decide)

/-- Documentation of a quirk: the `includes('от')` branch test is on the
whole cleaned string, so a bare figure preceded by a word containing
"от" (here "работа") parses as a min-only range. -/
lemma parseSalary_ot_inside_word :
    parseSalary (some (S "работа до 100 руб")) =
      some ⟨some (.jnum 100), none, .jstr (S "RUB"), .MONTH⟩ := rfl

/-! ## The DOM collaborator and the job record -/

/-- A DOM element, as the parsers read it: `textContent` (nullable) and
`innerHTML` (a string). -/
structure Element where
  textContent : Option Str
  innerHTML : Str

/-- A document snapshot: `location?.href`, `querySelectorAll` keyed by
the raw selector string (`querySelector` is its head), and the
`JSON.parse` results of the `script[type="application/ld+json"]` blocks
(`none` = malformed JSON; `JSON.parse` is a host collaborator). -/
structure Doc where
  locationHref : Option Str
  qsa : Str → List Element
  ldBlocks : List (Option Json)

/-- `document.querySelector`. -/
def querySel (doc : Doc) (sel : Str) : Option Element := (doc.qsa sel).head?

/-- `BaseParser.getText`: `doc.querySelector(sel)?.textContent?.trim() || ''`. -/
def getText (doc : Doc) (sel : Str) : Str :=
  match querySel doc sel with
  | some el =>
    match el.textContent with
    | some t => jsTrim t
    | none => []
  | none => []

/-- `BaseParser.getHtml`: `doc.querySelector(sel)?.innerHTML || ''`. -/
def getHtml (doc : Doc) (sel : Str) : Str :=
  match querySel doc sel with
  | some el => el.innerHTML
  | none => []

/-- The `JobData` record of `@job-bodyguard/types`. -/
structure JobData where
  title : Str
  company : Str
  location : Str
  description : Str
  requirements : List Str
  datePosted : Option Str
  validThrough : Option Str
  jobAge : Option Int
  visibleSalary : Option Str
  hiddenSalary : Option SalaryRange
  salaryMismatch : Bool
  redFlags : List Flag
  greenFlags : List Flag
  url : Str
  platform : Str
  scrapedAt : Str

/-- `BaseParser.createEmptyJobData` (`scrapedAt = new Date().toISOString()`
is the `nowIso` collaborator input). -/
def createEmptyJobData (url : Str) (platform : Str) (nowIso : Str) : JobData :=
  { title := [], company := [], location := [], description := [],
    requirements := [], datePosted := none, validThrough := none,
    jobAge := none, visibleSalary := none, hiddenSalary := none,
    salaryMismatch := false, redFlags := [], greenFlags := [],
    url := url, platform := platform, scrapedAt := nowIso }

/-- JS `x || null` on an optional value: `none` unless truthy. -/
def truthyOrNull (v : Option Json) : Option Json :=
  match v with
  | some x => if x.truthy then some x else none
  | none => none

/-- JS `x || dflt` producing a value. -/
def jsOrJson (v : Option Json) (dflt : Json) : Json :=
  match v with
  | some x => if x.truthy then x else dflt
  | none => dflt

/-- JS `x || y` on two optional values. -/
def jsOrOpt (x y : Option Json) : Option Json :=
  match x with
  | some v => if v.truthy then some v else y
  | none => y

/-- JS truthiness of a nullable string. -/
def strTruthy (s : Option Str) : Bool :=
  match s with
  | some t => !t.isEmpty
  | none => false

/-- JS `a || b` on strings. -/
def orStr (a : Option Str) (b : Str) : Str :=
  match a with
  | some t => if t.isEmpty then b else t
  | none => b

/-- JS `a || null` on a nullable string (`''` collapses to null). -/
def strOrNone (a : Option Str) : Option Str :=
  match a with
  | some t => if t.isEmpty then none else some t
  | none => none

/-! ## LinkedInParser (`packages/parsers/src/LinkedInParser.ts`) -/

namespace LinkedIn

/-- The joined title selector list. -/
def titleSelector : Str := S (String.intercalate ", "
  [".job-details-jobs-unified-top-card__job-title h1",
   ".job-details-jobs-unified-top-card__job-title",
   ".jobs-unified-top-card__job-title",
   "h1.t-24",
   ".jobs-details-top-card__job-title",
   "h1.top-card-layout__title",
   ".top-card-layout__title",
   "h1"])

/-- The joined company selector list. -/
def companySelector : Str := S (String.intercalate ", "
  [".job-details-jobs-unified-top-card__company-name a",
   ".jobs-unified-top-card__company-name a",
   ".jobs-unified-top-card__company-name",
   ".job-details-jobs-unified-top-card__primary-description-without-tagline a",
   ".jobs-details-top-card__company-url",
   ".topcard__org-name-link",
   ".topcard__flavor--black-link",
   "a[data-tracking-control-name=\"public_jobs_topcard-org-name\"]"])

/-- The joined location selector list. -/
def locationSelector : Str := S (String.intercalate ", "
  [".job-details-jobs-unified-top-card__bullet",
   ".jobs-unified-top-card__bullet",
   ".jobs-unified-top-card__workplace-type",
   ".job-details-jobs-unified-top-card__primary-description span",
   ".topcard__flavor--bullet",
   ".topcard__flavor"])

/-- The joined description selector list. -/
def descriptionSelector : Str := S (String.intercalate ", "
  ["#job-details",
   ".jobs-description__content",
   ".jobs-box__html-content",
   ".jobs-description-content__text",
   ".description__text",
   ".show-more-less-html",
   "[class*=\"description\"] [class*=\"content\"]"])

/-- The joined salary selector list. -/
def salarySelector : Str := S (String.intercalate ", "
  [".job-details-jobs-unified-top-card__job-insight span",
   ".compensation__salary",
   ".salary",
   "[class*=\"compensation\"] [class*=\"salary\"]"])

/-- `text.match(/\d{2,}[kK]/)` as a test: some position carries two or
more digits whose run is immediately followed by `k`/`K`. -/
def hasNumK : Str → Bool
  | [] => false
  | c :: rest =>
    if c.isDigit then
      (if 2 ≤ ((c :: rest).takeWhile Char.isDigit).length then
        match ((c :: rest).dropWhile Char.isDigit).head? with
        | some x => if x = 'k' ∨ x = 'K' then true else hasNumK rest
        | none => hasNumK rest
       else hasNumK rest)
    else hasNumK rest

/-- The visible-salary test of step 2. -/
def salaryTextMatches (t : Str) : Bool :=
  jsIncludesChar t '$' || jsIncludesChar t '€' || jsIncludesChar t '£' ||
    hasNumK t

/-- Suffix after the first occurrence of `pat`, if any. -/
def substrAfter : Str → Str → Option Str
  | l, pat =>
    if pat.isPrefixOf l then some (l.drop pat.length)
    else
      match l with
      | [] => none
      | _ :: t => substrAfter t pat

/-- Suffix after the first position where one of `pats` matches. -/
def firstMatchSuffix : Str → List Str → Option Str
  | l, pats =>
    match pats.find? (fun p => p.isPrefixOf l) with
    | some p => some (l.drop p.length)
    | none =>
      match l with
      | [] => none
      | _ :: t => firstMatchSuffix t pats

/-- Last `[?&]currentJobId=(\d+)` capture in `l` (the greedy `.*` of the
search pattern captures the last occurrence). -/
def lastJobIdAux (acc : Option Str) : Str → Option Str
  | [] => acc
  | c :: rest =>
    let here := c :: rest
    let acc' :=
      if (S "?currentJobId=").isPrefixOf here ∨
          (S "&currentJobId=").isPrefixOf here then
        (let ds := (here.drop 14).takeWhile Char.isDigit
         if ds.isEmpty then acc else some ds)
      else acc
    lastJobIdAux acc' rest

/-- `SEARCH_PATTERN.exec(url)`'s capture. -/
def searchPatternId (url : Str) : Option Str :=
  match firstMatchSuffix url
      [S "linkedin.com/jobs/search/", S "linkedin.com/jobs/recommended/",
       S "linkedin.com/jobs/collections/"] with
  | some rest => lastJobIdAux none rest
  | none => none

/-- `ROOT_JOB_PATTERN.exec(url)`'s capture. -/
def rootPatternId (url : Str) : Option Str :=
  match firstMatchSuffix url [S "linkedin.com/jobs/", S "linkedin.com/jobs?"] with
  | some rest => lastJobIdAux none rest
  | none => none

/-- `VIEW_PATTERN.exec(url)`'s capture: the maximal `[^/?#]+` run after
`linkedin.com/jobs/view/`. -/
def viewPatternSlug (url : Str) : Option Str :=
  match substrAfter url (S "linkedin.com/jobs/view/") with
  | some rest =>
    let slug := rest.takeWhile (fun c => !(c = '/' || c = '?' || c = '#'))
    if slug.isEmpty then none else some slug
  | none => none

/-- `LinkedInParser.extractJobId`. -/
def extractJobId (url : Str) : Option Str :=
  match (searchPatternId url).orElse (fun _ => rootPatternId url) with
  | some id => some id
  | none =>
    match viewPatternSlug url with
    | some slug =>
      -- slug.match(/(\d+)\/?$/): the trailing digit run, else the slug
      let td := (slug.reverse.takeWhile Char.isDigit).reverse
      if td.isEmpty then some slug else some td
    | none => none

/-- Steps 1-2 of `LinkedInParser.extractJobData`: the DOM pass. -/
def domPass (doc : Doc) (nowIso : Str) : JobData :=
  let url := match doc.locationHref with
    | some h => h
    | none => []
  let jobData := createEmptyJobData url (S "linkedin") nowIso
  -- 1. Extract visible data (DOM selectors)
  let jobData := { jobData with
    title := getText doc titleSelector,
    company := getText doc companySelector,
    location := getText doc locationSelector,
    description := getHtml doc descriptionSelector }
  -- 2. Try to find visible salary
  { jobData with
    visibleSalary :=
      ((doc.qsa salarySelector).find? (fun el =>
          salaryTextMatches (el.textContent.getD []))).map
        (fun el => jsTrim (el.textContent.getD [])) }

/-- Step 3 of `LinkedInParser.extractJobData`, dates part: `datePosted`
and `validThrough` from the JSON-LD node, overwriting unconditionally. -/
def ldDates (jobData : JobData) (ld : Json) (parseDate : Str → Int)
    (nowMs : Int) : JobData :=
  let jobData :=
    match truthyOrNull (ld.get (S "datePosted")) with
    | some v => { jobData with
        datePosted := some v.jsString,
        jobAge := some (calculateDaysAgo (parseDate v.jsString) nowMs) }
    | none => jobData
  match truthyOrNull (ld.get (S "validThrough")) with
  | some v => { jobData with validThrough := some v.jsString }
  | none => jobData

/-- Step 3, title part: title from JSON-LD only when the DOM title is
empty. -/
def ldTitle (jobData : JobData) (ld : Json) : JobData :=
  if jobData.title.isEmpty then
    match truthyOrNull (ld.get (S "title")) with
    | some v => { jobData with title := v.jsString }
    | none => jobData
  else jobData

/-- Step 3, company part: company from `hiringOrganization.name` only
when the DOM company is empty. -/
def ldCompany (jobData : JobData) (ld : Json) : JobData :=
  if jobData.company.isEmpty then
    match (ld.get (S "hiringOrganization")).bind
        (fun org => truthyOrNull (org.get (S "name"))) with
    | some v => { jobData with company := v.jsString }
    | none => jobData
  else jobData

/-- Step 3, salary part: the hidden salary from `baseSalary`. -/
def ldSalary (jobData : JobData) (ld : Json) : JobData :=
  match ld.get (S "baseSalary") with
  | some bs =>
    if bs.truthy then
      match bs.get (S "value") with
      | some sv =>
        match sv with
        | .jobj _ | .jarr _ =>
          -- typeof salaryValue === 'object' && salaryValue
          { jobData with hiddenSalary := some (SalaryRange.mk
              (truthyOrNull (sv.get (S "minValue")))
              (truthyOrNull (sv.get (S "maxValue")))
              (jsOrJson (bs.get (S "currency")) (.jstr (S "EUR")))
              (mapSalaryPeriod ((sv.get (S "unitText")).bind Json.asStr))) }
        | .jnum n =>
          { jobData with hiddenSalary := some (SalaryRange.mk
              (some (.jnum n)) (some (.jnum n))
              (jsOrJson (bs.get (S "currency")) (.jstr (S "EUR")))
              .YEAR) }
        | _ => jobData
      | none => jobData
    else jobData
  | none => jobData

/-- Step 3 of `LinkedInParser.extractJobData`: merge the JSON-LD node. -/
def ldMerge (jobData : JobData) (ld : Json) (parseDate : Str → Int)
    (nowMs : Int) : JobData :=
  ldSalary (ldCompany (ldTitle (ldDates jobData ld parseDate nowMs) ld) ld) ld

/-- Steps 1-3 of `LinkedInParser.extractJobData`. -/
def midPass (doc : Doc) (parseDate : Str → Int) (nowMs : Int)
    (nowIso : Str) : JobData :=
  let jobData := domPass doc nowIso
  -- 3. Extract JSON-LD metadata
  match extractJsonLd doc.ldBlocks with
  | none => jobData
  | some ld => ldMerge jobData ld parseDate nowMs

/-- Step 4 of `LinkedInParser.extractJobData`: detect salary mismatch. -/
def mismatchPass (jobData : JobData) : JobData :=
  if jobData.hiddenSalary.isSome && !strTruthy jobData.visibleSalary then
    { jobData with salaryMismatch := true }
  else jobData

/-- Step 5 of `LinkedInParser.extractJobData`: tag with jobId for
deduplication. -/
def urlPass (jobData : JobData) (url : Str) : JobData :=
  match extractJobId url with
  | some id =>
    { jobData with url := S "https://www.linkedin.com/jobs/view/" ++ id ++ S "/" }
  | none => jobData

/-- `LinkedInParser.extractJobData`.  `parseDate` models `new Date(s)`
(epoch ms), `nowMs` the capture instant, `nowIso` its ISO string. -/
def extractJobData (doc : Doc) (parseDate : Str → Int) (nowMs : Int)
    (nowIso : Str) : JobData :=
  let url := match doc.locationHref with
    | some h => h
    | none => []
  urlPass (mismatchPass (midPass doc parseDate nowMs nowIso)) url

end LinkedIn

/-! ## IndeedParser (`IndeedParser.ts`) -/

namespace Indeed

/-- Title selector. -/
def titleSelector : Str :=
  S "h1.jobsearch-JobInfoHeader-title, [data-testid=\"jobsearch-JobInfoHeader-title\"], h2.jobTitle"

/-- Company selector. -/
def companySelector : Str :=
  S "[data-testid=\"company-name\"], .jobsearch-InlineCompanyRating-companyHeader"

/-- Location selector. -/
def locationSelector : Str :=
  S "[data-testid=\"text-location\"], [data-testid=\"job-location\"]"

/-- Description selector. -/
def descriptionSelector : Str :=
  S "#jobDescriptionText, [data-testid=\"jobDescriptionText\"]"

/-- Salary selector. -/
def salarySelector : Str :=
  S "[data-testid=\"attribute_snippet_testid\"], .jobsearch-JobMetadataHeader-item"

/-- Posted-age selector. -/
def postedSelector : Str :=
  S "[data-testid=\"myJobsStateDate\"], .jobsearch-HiringInsights-entry--text"

/-- The visible-salary test of step 2. -/
def salaryTextMatches (t : Str) : Bool :=
  jsIncludesChar t '$' || jsIncludesChar t '€' || jsIncludesChar t '£' ||
    jsIncludes t (S "a year") || jsIncludes t (S "an hour")

/-- Skip an optional `s`/`S` (the `s?` of `days?`). -/
def skipOptS (l : Str) : Str :=
  match l with
  | c :: rest => if c = 's' ∨ c = 'S' then rest else l
  | [] => l

/-- The tail check `\s*ago` preceded by `day` and its optional `s`. -/
def dayAgoTail (l : Str) : Bool :=
  startsWithCI ((skipOptS l).dropWhile isWs) (S "ago")

/-- `/(\d+)\s*days?\s*ago/i`: leftmost match's digit capture. -/
def matchDaysAgo : Str → Option Int
  | [] => none
  | c :: rest =>
    (if c.isDigit then
      let run := (c :: rest).takeWhile Char.isDigit
      let after := (c :: rest).dropWhile Char.isDigit
      let afterWs := after.dropWhile isWs
      if startsWithCI afterWs (S "day") ∧ dayAgoTail (afterWs.drop 3) then
        some (digitsVal run)
      else matchDaysAgo rest
    else matchDaysAgo rest)

/-- `/(\d+)\+\s*days?\s*ago/i`: leftmost match's digit capture. -/
def matchPlusDaysAgo : Str → Option Int
  | [] => none
  | c :: rest =>
    (if c.isDigit then
      let run := (c :: rest).takeWhile Char.isDigit
      let after := (c :: rest).dropWhile Char.isDigit
      match after with
      | '+' :: after1 =>
        let afterWs := after1.dropWhile isWs
        if startsWithCI afterWs (S "day") ∧ dayAgoTail (afterWs.drop 3) then
          some (digitsVal run)
        else matchPlusDaysAgo rest
      | _ => matchPlusDaysAgo rest
    else matchPlusDaysAgo rest)

/-- `IndeedParser.parsePostedText`. -/
def parsePostedText (doc : Doc) : Option Int :=
  let text := match (querySel doc postedSelector).bind (·.textContent) with
    | some t => t
    | none => []
  match matchDaysAgo text with
  | some n => some n
  | none =>
    if jsIncludes (lowerStr text) (S "just posted") ||
        jsIncludes (lowerStr text) (S "today") then some 0
    else
      match matchPlusDaysAgo text with
      | some n => some n
      | none => none

/-- Steps 1-3 of `IndeedParser.extractJobData`: DOM pass and the
"Posted X days ago" text. -/
def domPass (doc : Doc) (nowIso : Str) (daysAgoIso : Int → Str) : JobData :=
  let url := match doc.locationHref with
    | some h => h
    | none => []
  let jobData := createEmptyJobData url (S "indeed") nowIso
  -- 1. Extract visible data
  let jobData := { jobData with
    title := getText doc titleSelector,
    company := getText doc companySelector,
    location := getText doc locationSelector,
    description := getHtml doc descriptionSelector }
  -- 2. Try to find salary
  let jobData := { jobData with
    visibleSalary :=
      ((doc.qsa salarySelector).find? (fun el =>
          salaryTextMatches (el.textContent.getD []))).map
        (fun el => jsTrim (el.textContent.getD [])) }
  -- 3. Try to parse "Posted X days ago" text
  match parsePostedText doc with
  | some postedAge => { jobData with
      jobAge := some postedAge,
      datePosted := some (daysAgoIso postedAge) }
  | none => jobData

/-- Step 4 of `IndeedParser.extractJobData`, dates part. -/
def ldDates (jobData : JobData) (ld : Json) (parseDate : Str → Int)
    (nowMs : Int) : JobData :=
  let jobData :=
    match truthyOrNull (ld.get (S "datePosted")) with
    | some v => { jobData with
        datePosted := some v.jsString,
        jobAge := some (calculateDaysAgo (parseDate v.jsString) nowMs) }
    | none => jobData
  match truthyOrNull (ld.get (S "validThrough")) with
  | some v => { jobData with validThrough := some v.jsString }
  | none => jobData

/-- Step 4, salary part. -/
def ldSalary (jobData : JobData) (ld : Json) : JobData :=
  match ld.get (S "baseSalary") with
  | some bs =>
    if bs.truthy then
      match bs.get (S "value") with
      | some sv =>
        if sv.truthy then
          { jobData with hiddenSalary := some (SalaryRange.mk
              (truthyOrNull (sv.get (S "minValue")))
              (truthyOrNull (sv.get (S "maxValue")))
              (jsOrJson (bs.get (S "currency")) (.jstr (S "USD")))
              (mapSalaryPeriod ((sv.get (S "unitText")).bind Json.asStr))) }
        else jobData
      | none => jobData
    else jobData
  | none => jobData

/-- Step 4 of `IndeedParser.extractJobData`: merge the JSON-LD node. -/
def ldMerge (jobData : JobData) (ld : Json) (parseDate : Str → Int)
    (nowMs : Int) : JobData :=
  ldSalary (ldDates jobData ld parseDate nowMs) ld

/-- `IndeedParser.extractJobData`.  `daysAgoIso n` models
`new Date()` shifted `n` days back, rendered `toISOString().split('T')[0]`
(a host-calendar collaborator). -/
def extractJobData (doc : Doc) (parseDate : Str → Int) (nowMs : Int)
    (nowIso : Str) (daysAgoIso : Int → Str) : JobData :=
  let jobData := domPass doc nowIso daysAgoIso
  -- 4. Extract JSON-LD if available
  match extractJsonLd doc.ldBlocks with
  | none => jobData
  | some ld => ldMerge jobData ld parseDate nowMs

end Indeed

/-! ## HHParser (`HHParser.ts`) -/

namespace HH

/-- `HHParser.findText`: first selector whose element has non-blank
text, trimmed. -/
def findText (doc : Doc) : List Str → Str
  | [] => []
  | sel :: rest =>
    match querySel doc sel with
    | some el =>
      match el.textContent with
      | some t => if (jsTrim t).isEmpty then findText doc rest else jsTrim t
      | none => findText doc rest
    | none => findText doc rest

/-- `HHParser.findHtml`: first selector whose element has non-blank
HTML, trimmed. -/
def findHtml (doc : Doc) : List Str → Str
  | [] => []
  | sel :: rest =>
    match querySel doc sel with
    | some el =>
      if (jsTrim el.innerHTML).isEmpty then findHtml doc rest
      else jsTrim el.innerHTML
    | none => findHtml doc rest

/-- The hh.ru title selectors. -/
def titleSelectors : List Str :=
  [S "h1[data-qa=\"vacancy-title\"]", S ".vacancy-title h1",
   S "h1.bloko-header-section-1"]

/-- The hh.ru company selectors. -/
def companySelectors : List Str :=
  [S "[data-qa=\"vacancy-company-name\"]", S ".vacancy-company-name a",
   S ".bloko-link_kind-tertiary"]

/-- The hh.ru location selectors. -/
def locationSelectors : List Str :=
  [S "[data-qa=\"vacancy-view-location\"]", S ".vacancy-view-location",
   S "[data-qa=\"vacancy-view-raw-address\"]"]

/-- The hh.ru description selectors. -/
def descriptionSelectors : List Str :=
  [S "[data-qa=\"vacancy-description\"]", S ".vacancy-section",
   S ".bloko-gap-bottom-6 .g-user-content"]

/-- The hh.ru salary selectors. -/
def salarySelectors : List Str :=
  [S "[data-qa=\"vacancy-salary-compensation-type-net\"]",
   S "[data-qa=\"vacancy-salary\"]", S ".vacancy-salary",
   S ".bloko-header-section-2"]

/-- The DOM side of `HHParser.extractFromDOM`. -/
structure HHDom where
  title : Str
  company : Str
  location : Str
  description : Str
  salary : Option Str

/-- `HHParser.extractFromDOM`. -/
def extractFromDOM (doc : Doc) : HHDom :=
  { title := findText doc titleSelectors,
    company := findText doc companySelectors,
    location := findText doc locationSelectors,
    description := findHtml doc descriptionSelectors,
    salary := strOrNone (some (findText doc salarySelectors)) }

/-- `HHParser.extractLocation`. -/
def extractLocation (data : Json) : Option Str :=
  match truthyOrNull (data.get (S "jobLocation")) with
  | none => none
  | some jobLocation =>
    match truthyOrNull (jobLocation.get (S "address")) with
    | none => none
    | some address =>
      (jsOrOpt (address.get (S "addressLocality"))
        (address.get (S "addressRegion"))).bind Json.asStr

/-- `Number#toLocaleString` digit grouping (default `en-US` host
locale: comma thousands separators); `rev` runs over the reversed digit
string. -/
def groupRev : Str → Nat → Str
  | [], _ => []
  | c :: rest, k =>
    if k ≠ 0 ∧ k % 3 = 0 then ',' :: c :: groupRev rest (k + 1)
    else c :: groupRev rest (k + 1)

/-- `x.toLocaleString()` for the values this code passes it. -/
def jsLocaleString (v : Json) : Str :=
  match v with
  | .jnum n =>
    if n < 0 then '-' :: (groupRev (S (toString n.natAbs)).reverse 0).reverse
    else (groupRev (S (toString n.natAbs)).reverse 0).reverse
  | other => other.jsString

/-- `HHParser.formatSalaryFromJsonLd`. -/
def formatSalaryFromJsonLd (baseSalary : Option Json) : Option Str :=
  match baseSalary with
  | none => none
  | some b =>
    match truthyOrNull (b.get (S "value")) with
    | none => none
    | some v =>
      let currency := jsOrJson (b.get (S "currency")) (.jstr (S "RUB"))
      match truthyOrNull (v.get (S "minValue")),
          truthyOrNull (v.get (S "maxValue")) with
      | some mn, some mx =>
        some (jsLocaleString mn ++ S " - " ++ jsLocaleString mx ++ S " " ++
          currency.jsString)
      | _, _ =>
        match truthyOrNull (v.get (S "value")) with
        | some vv => some (jsLocaleString vv ++ S " " ++ currency.jsString)
        | none => none

/-- The JSON-LD side of `HHParser.extractHHJsonLd`.  The `as string`
casts of the source are modelled by `Json.asStr` (the modelled inputs
hold strings in these fields). -/
structure HHLd where
  title : Option Str
  company : Option Str
  location : Option Str
  datePosted : Option Str
  validThrough : Option Str
  salary : Option Str

/-- `HHParser.extractHHJsonLd`. -/
def extractHHJsonLd (doc : Doc) : HHLd :=
  match extractJsonLd doc.ldBlocks with
  | none => ⟨none, none, none, none, none, none⟩
  | some data =>
    { title := (data.get (S "title")).bind Json.asStr,
      company := ((data.get (S "hiringOrganization")).bind
        (fun org => org.get (S "name"))).bind Json.asStr,
      location := extractLocation data,
      datePosted := (data.get (S "datePosted")).bind Json.asStr,
      validThrough := (data.get (S "validThrough")).bind Json.asStr,
      salary := formatSalaryFromJsonLd (data.get (S "baseSalary")) }

/-! ### `HHParser.extractRequirements`

The three labelled-section regexes are embedded as leftmost scanners.
The lazy `(.+?)` with lookahead `(?=обязанности|условия|мы\s+предлагаем|$)`
takes the text up to the first terminator occurrence strictly after the
section header (or the end); when `[:\s]*` reaches the end of the string
the engine backtracks it by one character, leaving a one-character
capture. -/

/-- Case-insensitively drop a literal. -/
def dropLit (u lit : Str) : Option Str :=
  if startsWithCI u lit then some (u.drop lit.length) else none

/-- Drop `\s+` (at least one whitespace character, maximal run). -/
def dropWs1 (u : Str) : Option Str :=
  match u with
  | c :: _ => if isWs c then some (u.dropWhile isWs) else none
  | [] => none

/-- The lookahead `обязанности|условия|мы\s+предлагаем` at a position. -/
def term1At (u : Str) : Bool :=
  startsWithCI u (S "обязанности") || startsWithCI u (S "условия") ||
    (match dropLit u (S "мы") with
     | some v =>
       match dropWs1 v with
       | some w => startsWithCI w (S "предлагаем")
       | none => false
     | none => false)

/-- The lookahead `обязанности|описание` at a position. -/
def term3At (u : Str) : Bool :=
  startsWithCI u (S "обязанности") || startsWithCI u (S "описание")

/-- The lazy capture: at least one character, up to the first position
strictly inside where the terminator lookahead matches (or the end). -/
def takeUntilTermAux (isTerm : Str → Bool) : Str → Str
  | [] => []
  | c :: rest => if isTerm (c :: rest) then [] else c :: takeUntilTermAux isTerm rest

/-- First character unconditionally (the `+` of `(.+?)`), then scan. -/
def takeUntilTerm (isTerm : Str → Bool) : Str → Str
  | [] => []
  | c :: rest => c :: takeUntilTermAux isTerm rest

/-- After the header, `[:\s]*` then the lazy capture; `cands` lists the
backtracking alternatives for the optional header tail (longest
first). -/
def tryColonPart (isTerm : Str → Bool) : List Str → Option Str
  | [] => none
  | cand :: more =>
    match cand.dropWhile (fun c => c = ':' || isWs c) with
    | [] =>
      -- `[:\s]*` consumed to the end: `(.+?)` forces one character back
      match cand.getLast? with
      | some c => some [c]
      | none => tryColonPart isTerm more
    | j => some (takeUntilTerm isTerm j)

/-- `(?:\s+к\s+кандидату)?` after `требования`. -/
def dropKKandidatu (u : Str) : Option Str :=
  (dropWs1 u).bind fun v =>
    (dropLit v (S "к")).bind fun w =>
      (dropWs1 w).bind fun x => dropLit x (S "кандидату")

/-- One attempt of the first section pattern at a position. -/
def tryHeader1 (u : Str) : Option Str :=
  match dropLit u (S "требования") with
  | none => none
  | some u1 =>
    match dropKKandidatu u1 with
    | some u2 => tryColonPart term1At [u2, u1]
    | none => tryColonPart term1At [u1]

/-- One attempt of the second section pattern at a position. -/
def tryHeader2 (u : Str) : Option Str :=
  match (dropLit u (S "что")).bind (fun v => (dropWs1 v).bind fun w =>
      (dropLit w (S "мы")).bind fun x => (dropWs1 x).bind fun y =>
        dropLit y (S "ожидаем")) with
  | some u1 => tryColonPart term1At [u1]
  | none => none

/-- One attempt of the third section pattern at a position. -/
def tryHeader3 (u : Str) : Option Str :=
  match (dropLit u (S "ключевые")).bind (fun v => (dropWs1 v).bind fun w =>
      dropLit w (S "навыки")) with
  | some u1 => tryColonPart term3At [u1]
  | none => none

/-- Leftmost match of a section pattern. -/
def findSection (tryAt : Str → Option Str) : Str → Option Str
  | [] => none
  | c :: rest =>
    match tryAt (c :: rest) with
    | some g => some g
    | none => findSection tryAt rest

/-- `[...new Set(xs)]`: first occurrences, in order. -/
def dedupAux : List Str → List Str → List Str
  | [], _ => []
  | x :: rest, seen =>
    if seen.contains x then dedupAux rest seen
    else x :: dedupAux rest (x :: seen)

/-- `[...new Set(xs)]`. -/
def dedupList (l : List Str) : List Str := dedupAux l []

/-- `match[1].split(/[•\-\*\n]+/).map(strip-tags, trim).filter(length band)`. -/
def processSection (g : Str) : List Str :=
  ((splitOnSet (fun c => c = '•' || c = '-' || c = '*' || c = '\n') g).map
      (fun s => jsTrim (stripTagsEmpty s))).filter
    (fun s => decide (5 < s.length ∧ s.length < 200))

/-- `HHParser.extractRequirements`. -/
def extractRequirements (description : Str) : List Str :=
  let requirements :=
    (match findSection tryHeader1 description with
     | some g => processSection g
     | none => []) ++
    (match findSection tryHeader2 description with
     | some g => processSection g
     | none => []) ++
    (match findSection tryHeader3 description with
     | some g => processSection g
     | none => [])
  (dedupList requirements).take 15

/-- `HHParser.extractJobData`. -/
def extractJobData (doc : Doc) (parseDate : Str → Int) (nowMs : Int)
    (nowIso : Str) : JobData :=
  let jsonLd := extractHHJsonLd doc
  let dom := extractFromDOM doc
  { title := orStr jsonLd.title (orStr (some dom.title) (S "Unknown Title")),
    company :=
      orStr jsonLd.company (orStr (some dom.company) (S "Unknown Company")),
    location :=
      orStr jsonLd.location (orStr (some dom.location) (S "Unknown Location")),
    description := dom.description,
    requirements := extractRequirements dom.description,
    datePosted := strOrNone jsonLd.datePosted,
    validThrough := strOrNone jsonLd.validThrough,
    jobAge := match jsonLd.datePosted with
      | some d =>
        if d.isEmpty then none
        else some (calculateDaysAgo (parseDate d) nowMs)
      | none => none,
    visibleSalary := dom.salary,
    hiddenSalary := parseSalary
      (match jsonLd.salary with
       | some t => if t.isEmpty then dom.salary else some t
       | none => dom.salary),
    salaryMismatch := false,
    redFlags := [],
    greenFlags := [],
    url := match doc.locationHref with
      | some h => h
      | none => [],
    platform := S "other",
    scrapedAt := nowIso }

end HH

lemma dedupAux_spec :
    ∀ (l seen : List Str), (HH.dedupAux l seen).Nodup ∧
      ∀ x ∈ HH.dedupAux l seen, x ∈ l ∧ x ∉ seen := by
  intro l
  induction l with
  | nil => intro seen; exact ⟨List.nodup_nil, by simp [HH.dedupAux]⟩
  | cons x rest ih =>
    intro seen
    by_cases hx : seen.contains x = true
    · simp only [HH.dedupAux, hx, if_true]
      obtain ⟨h1, h2⟩ := ih seen
      exact ⟨h1, fun y hy =>
        ⟨List.mem_cons_of_mem x (h2 y hy).1, (h2 y hy).2⟩⟩
    · simp only [HH.dedupAux, hx, Bool.false_eq_true, if_false]
      obtain ⟨h1, h2⟩ := ih (x :: seen)
      refine ⟨List.nodup_cons.mpr ⟨fun hmem => ?_, h1⟩, ?_⟩
      · exact (h2 x hmem).2 (List.mem_cons_self x seen)
      · intro y hy
        rcases List.mem_cons.mp hy with rfl | hy
        · refine ⟨List.mem_cons_self y rest, fun hseen => ?_⟩
          exact hx (List.contains_iff_exists_mem_beq.mpr ⟨y, hseen, by simp⟩)
        · obtain ⟨hl, hs⟩ := h2 y hy
          exact ⟨List.mem_cons_of_mem x hl,
            fun hseen => hs (List.mem_cons_of_mem x hseen)⟩

lemma processSection_spec {g : Str} :
    ∀ r ∈ HH.processSection g,
      (∃ frag : Str, r = jsTrim (stripTagsEmpty frag)) ∧
        5 < r.length ∧ r.length < 200 := by
  intro r hr
  unfold HH.processSection at hr
  obtain ⟨hmem, hcond⟩ := List.mem_filter.mp hr
  obtain ⟨frag, -, rfl⟩ := List.mem_map.mp hmem
  exact ⟨⟨frag, rfl⟩, of_decide_eq_true hcond⟩

/-- Claim C10: for every description text, the hh.ru requirements list
has at most 15 entries, no two identical entries, and every entry is a
markup-stripped trimmed fragment of length strictly between 5 and 200
characters. -/
theorem C10_extractRequirements :
    ∀ description : Str,
      (HH.extractRequirements description).length ≤ 15 ∧
      (HH.extractRequirements description).Nodup ∧
      ∀ r ∈ HH.extractRequirements description,
        (∃ frag : Str, r = jsTrim (stripTagsEmpty frag)) ∧
          5 < r.length ∧ r.length < 200 := by
  intro description
  unfold HH.extractRequirements
  refine ⟨List.length_take_le .., ?_, ?_⟩
  · exact ((dedupAux_spec _ []).1).sublist (List.take_sublist ..)
  · intro r hr
    have hded := (dedupAux_spec
      ((match HH.findSection HH.tryHeader1 description with
        | some g => HH.processSection g
        | none => []) ++
       (match HH.findSection HH.tryHeader2 description with
        | some g => HH.processSection g
        | none => []) ++
       (match HH.findSection HH.tryHeader3 description with
        | some g => HH.processSection g
        | none => [])) []).2 r
      ((List.take_sublist ..).subset hr)
    have hmem := hded.1
    rcases List.mem_append.mp hmem with hmem | hmem3
    · rcases List.mem_append.mp hmem with hmem1 | hmem2
      · rcases hg : HH.findSection HH.tryHeader1 description with _ | g <;>
          rw [hg] at hmem1
        · cases hmem1
        · exact processSection_spec r hmem1
      · rcases hg : HH.findSection HH.tryHeader2 description with _ | g <;>
          rw [hg] at hmem2
        · cases hmem2
        · exact processSection_spec r hmem2
    · rcases hg : HH.findSection HH.tryHeader3 description with _ | g <;>
        rw [hg] at hmem3
      · cases hmem3
      · exact processSection_spec r hmem3

/-- Claim C10, witness: a labelled Russian section with a bullet list. -/
theorem C10_witness :
    (HH.extractRequirements
        (S "Требования: опыт Python\n- знание SQL и баз данных\nУсловия: офис")).Nodup ∧
      (∃ frag : Str,
        S "знание SQL и баз данных" = jsTrim (stripTagsEmpty frag)) ∧
      5 < (S "знание SQL и баз данных").length ∧
      (S "знание SQL и баз данных").length < 200 := by
  obtain ⟨-, h2, h3⟩ := C10_extractRequirements
    (S "Требования: опыт Python\n- знание SQL и баз данных\nУсловия: офис")
  have hm := h3 (S "знание SQL и баз данных") (by decide)
  exact ⟨h2, hm.1, hm.2.1, hm.2.2⟩

/-! ## Claim C1: the salary-mismatch rule across the three extractors -/

lemma mem_dropWhile_of_neg {p : Char → Bool} {l : Str} {c : Char}
    (hc : c ∈ l) (hpc : p c = false) : c ∈ l.dropWhile p := by
  induction l with
  | nil => cases hc
  | cons x t ih =>
    rw [List.dropWhile_cons]
    by_cases hx : p x = true
    · rw [if_pos hx]
      rcases List.mem_cons.mp hc with rfl | hc
      · rw [hx] at hpc; cases hpc
      · exact ih hc
    · rw [Bool.not_eq_true] at hx
      simp [hx, hc]

lemma mem_jsTrim {l : Str} {c : Char} (hc : c ∈ l) (hw : isWs c = false) :
    c ∈ jsTrim l := by
  unfold jsTrim
  rw [List.mem_reverse]
  refine mem_dropWhile_of_neg ?_ hw
  rw [List.mem_reverse]
  exact mem_dropWhile_of_neg hc hw

lemma hasNumK_exists {l : Str} (h : LinkedIn.hasNumK l = true) :
    ∃ c ∈ l, c.isDigit = true := by
  induction l with
  | nil => cases h
  | cons c rest ih =>
    by_cases hc : c.isDigit = true
    · exact ⟨c, List.mem_cons_self c rest, hc⟩
    · rw [Bool.not_eq_true] at hc
      simp only [LinkedIn.hasNumK, hc, Bool.false_eq_true, if_false] at h
      obtain ⟨x, hx, hxd⟩ := ih h
      exact ⟨x, List.mem_cons_of_mem c hx, hxd⟩

lemma contains_char_mem {l : Str} {c : Char} (h : jsIncludesChar l c = true) :
    c ∈ l := by
  obtain ⟨b, hb, hbeq⟩ := List.contains_iff_exists_mem_beq.mp h
  rwa [show c = b from eq_of_beq hbeq]

/-- A text passing the visible-salary test trims to a non-empty string. -/
lemma salary_text_trim_ne {t : Str}
    (h : (jsIncludesChar t '$' || jsIncludesChar t '€' || jsIncludesChar t '£'
      || LinkedIn.hasNumK t) = true) : jsTrim t ≠ [] := by
  have hex : ∃ c ∈ t, isWs c = false := by
    rcases Bool.or_eq_true_iff.mp h with h | h
    · rcases Bool.or_eq_true_iff.mp h with h | h
      · rcases Bool.or_eq_true_iff.mp h with h | h
        · exact ⟨'$', contains_char_mem h, by decide⟩
        · exact ⟨'€', contains_char_mem h, by decide⟩
      · exact ⟨'£', contains_char_mem h, by decide⟩
    · obtain ⟨c, hc, hcd⟩ := hasNumK_exists h
      exact ⟨c, hc, by
        rcases Bool.eq_false_or_eq_true (isWs c) with h' | h'
        · exfalso
          revert hcd
          rcases (by simpa [isWs, or_assoc] using h' :
            c = ' ' ∨ c = '\t' ∨ c = '\n' ∨ c = '\r' ∨
              c = Char.ofNat 0x0b ∨ c = Char.ofNat 0x0c ∨
              c = Char.ofNat 0xa0) with rfl | rfl | rfl | rfl | rfl | rfl | rfl
            <;> decide
        · exact h'⟩
  obtain ⟨c, hc, hw⟩ := hex
  exact List.ne_nil_of_mem (mem_jsTrim hc hw)

lemma domPass_LI_visible_ne {doc : Doc} {iso s : Str}
    (h : (LinkedIn.domPass doc iso).visibleSalary = some s) : s ≠ [] := by
  unfold LinkedIn.domPass at h
  dsimp only at h
  obtain ⟨el, hel, rfl⟩ := Option.map_eq_some'.mp h
  have hp := List.find?_some hel
  exact salary_text_trim_ne (by
    simpa [LinkedIn.salaryTextMatches] using hp)

lemma ldDates_LI_preserves (j : JobData) (ld : Json) (pd : Str → Int)
    (now : Int) :
    (LinkedIn.ldDates j ld pd now).title = j.title ∧
      (LinkedIn.ldDates j ld pd now).company = j.company ∧
      (LinkedIn.ldDates j ld pd now).visibleSalary = j.visibleSalary ∧
      (LinkedIn.ldDates j ld pd now).hiddenSalary = j.hiddenSalary ∧
      (LinkedIn.ldDates j ld pd now).salaryMismatch = j.salaryMismatch := by
  unfold LinkedIn.ldDates
  dsimp only
  repeat' split
  all_goals exact ⟨rfl, rfl, rfl, rfl, rfl⟩

lemma ldTitle_LI_preserves (j : JobData) (ld : Json) :
    (LinkedIn.ldTitle j ld).company = j.company ∧
      (LinkedIn.ldTitle j ld).datePosted = j.datePosted ∧
      (LinkedIn.ldTitle j ld).validThrough = j.validThrough ∧
      (LinkedIn.ldTitle j ld).visibleSalary = j.visibleSalary ∧
      (LinkedIn.ldTitle j ld).hiddenSalary = j.hiddenSalary ∧
      (LinkedIn.ldTitle j ld).salaryMismatch = j.salaryMismatch ∧
      (LinkedIn.ldTitle j ld).jobAge = j.jobAge := by
  unfold LinkedIn.ldTitle
  repeat' split
  all_goals exact ⟨rfl, rfl, rfl, rfl, rfl, rfl, rfl⟩

lemma ldCompany_LI_preserves (j : JobData) (ld : Json) :
    (LinkedIn.ldCompany j ld).title = j.title ∧
      (LinkedIn.ldCompany j ld).datePosted = j.datePosted ∧
      (LinkedIn.ldCompany j ld).validThrough = j.validThrough ∧
      (LinkedIn.ldCompany j ld).visibleSalary = j.visibleSalary ∧
      (LinkedIn.ldCompany j ld).hiddenSalary = j.hiddenSalary ∧
      (LinkedIn.ldCompany j ld).salaryMismatch = j.salaryMismatch ∧
      (LinkedIn.ldCompany j ld).jobAge = j.jobAge := by
  unfold LinkedIn.ldCompany
  repeat' split
  all_goals exact ⟨rfl, rfl, rfl, rfl, rfl, rfl, rfl⟩

lemma ldSalary_LI_preserves (j : JobData) (ld : Json) :
    (LinkedIn.ldSalary j ld).title = j.title ∧
      (LinkedIn.ldSalary j ld).company = j.company ∧
      (LinkedIn.ldSalary j ld).datePosted = j.datePosted ∧
      (LinkedIn.ldSalary j ld).validThrough = j.validThrough ∧
      (LinkedIn.ldSalary j ld).visibleSalary = j.visibleSalary ∧
      (LinkedIn.ldSalary j ld).salaryMismatch = j.salaryMismatch ∧
      (LinkedIn.ldSalary j ld).jobAge = j.jobAge := by
  unfold LinkedIn.ldSalary
  repeat' split
  all_goals exact ⟨rfl, rfl, rfl, rfl, rfl, rfl, rfl⟩

lemma ldMerge_LI_preserves (j : JobData) (ld : Json) (pd : Str → Int)
    (now : Int) :
    (LinkedIn.ldMerge j ld pd now).visibleSalary = j.visibleSalary ∧
      (LinkedIn.ldMerge j ld pd now).salaryMismatch = j.salaryMismatch := by
  obtain ⟨-, -, dv, -, dm⟩ := ldDates_LI_preserves j ld pd now
  obtain ⟨-, -, -, tv, -, tm, -⟩ :=
    ldTitle_LI_preserves (LinkedIn.ldDates j ld pd now) ld
  obtain ⟨-, -, -, cv, -, cm, -⟩ :=
    ldCompany_LI_preserves (LinkedIn.ldTitle (LinkedIn.ldDates j ld pd now) ld) ld
  obtain ⟨-, -, -, -, sv, sm, -⟩ :=
    ldSalary_LI_preserves
      (LinkedIn.ldCompany (LinkedIn.ldTitle (LinkedIn.ldDates j ld pd now) ld) ld) ld
  unfold LinkedIn.ldMerge
  exact ⟨by rw [sv, cv, tv, dv], by rw [sm, cm, tm, dm]⟩

lemma midPass_LI_mismatch (doc : Doc) (pd : Str → Int) (now : Int)
    (iso : Str) : (LinkedIn.midPass doc pd now iso).salaryMismatch = false := by
  unfold LinkedIn.midPass
  dsimp only
  split
  · rfl
  · rw [(ldMerge_LI_preserves _ _ _ _).2]
    rfl

lemma midPass_LI_visible_ne {doc : Doc} {pd : Str → Int} {now : Int}
    {iso s : Str}
    (h : (LinkedIn.midPass doc pd now iso).visibleSalary = some s) :
    s ≠ [] := by
  unfold LinkedIn.midPass at h
  dsimp only at h
  split at h
  · exact domPass_LI_visible_ne h
  · rw [(ldMerge_LI_preserves _ _ _ _).1] at h
    exact domPass_LI_visible_ne h

lemma urlPass_LI_preserves (j : JobData) (url : Str) :
    (LinkedIn.urlPass j url).salaryMismatch = j.salaryMismatch ∧
      (LinkedIn.urlPass j url).hiddenSalary = j.hiddenSalary ∧
      (LinkedIn.urlPass j url).visibleSalary = j.visibleSalary ∧
      (LinkedIn.urlPass j url).title = j.title ∧
      (LinkedIn.urlPass j url).company = j.company ∧
      (LinkedIn.urlPass j url).datePosted = j.datePosted ∧
      (LinkedIn.urlPass j url).validThrough = j.validThrough ∧
      (LinkedIn.urlPass j url).jobAge = j.jobAge ∧
      (LinkedIn.urlPass j url).location = j.location ∧
      (LinkedIn.urlPass j url).description = j.description ∧
      (LinkedIn.urlPass j url).requirements = j.requirements ∧
      (LinkedIn.urlPass j url).redFlags = j.redFlags ∧
      (LinkedIn.urlPass j url).greenFlags = j.greenFlags := by
  unfold LinkedIn.urlPass
  split <;>
    exact ⟨rfl, rfl, rfl, rfl, rfl, rfl, rfl, rfl, rfl, rfl, rfl, rfl, rfl⟩

lemma mismatchPass_LI_preserves (j : JobData) :
    (LinkedIn.mismatchPass j).title = j.title ∧
      (LinkedIn.mismatchPass j).company = j.company ∧
      (LinkedIn.mismatchPass j).datePosted = j.datePosted ∧
      (LinkedIn.mismatchPass j).validThrough = j.validThrough ∧
      (LinkedIn.mismatchPass j).jobAge = j.jobAge := by
  unfold LinkedIn.mismatchPass
  split <;> exact ⟨rfl, rfl, rfl, rfl, rfl⟩

/-- The mismatch step in isolation, on any record whose `visibleSalary`
is never the empty string and whose flag starts false. -/
lemma mismatchPass_iff (j : JobData) (hM : j.salaryMismatch = false)
    (hV : ∀ s, j.visibleSalary = some s → s ≠ []) :
    ((LinkedIn.mismatchPass j).salaryMismatch = true ↔
      ((LinkedIn.mismatchPass j).hiddenSalary ≠ none ∧
        (LinkedIn.mismatchPass j).visibleSalary = none)) := by
  unfold LinkedIn.mismatchPass
  by_cases hc : (j.hiddenSalary.isSome && !strTruthy j.visibleSalary) = true
  · rw [if_pos hc]
    obtain ⟨h1, h2⟩ := Bool.and_eq_true_iff.mp hc
    constructor
    · intro _
      refine ⟨Option.isSome_iff_ne_none.mp h1, ?_⟩
      rcases hv : j.visibleSalary with _ | s
      · rfl
      · exfalso
        rw [hv] at h2
        exact hV s hv (by simpa [strTruthy] using h2)
    · intro _
      rfl
  · rw [if_neg hc]
    rw [hM]
    simp only [Bool.false_eq_true, false_iff]
    rintro ⟨h1, h2⟩
    apply hc
    rw [Bool.and_eq_true_iff]
    refine ⟨Option.isSome_iff_ne_none.mpr h1, ?_⟩
    rw [h2]
    rfl

lemma domPass_IN_mismatch (doc : Doc) (iso : Str) (dai : Int → Str) :
    (Indeed.domPass doc iso dai).salaryMismatch = false := by
  unfold Indeed.domPass
  dsimp only
  split <;> rfl

lemma ldDates_IN_preserves (j : JobData) (ld : Json) (pd : Str → Int)
    (now : Int) :
    (Indeed.ldDates j ld pd now).title = j.title ∧
      (Indeed.ldDates j ld pd now).company = j.company ∧
      (Indeed.ldDates j ld pd now).visibleSalary = j.visibleSalary ∧
      (Indeed.ldDates j ld pd now).hiddenSalary = j.hiddenSalary ∧
      (Indeed.ldDates j ld pd now).salaryMismatch = j.salaryMismatch := by
  unfold Indeed.ldDates
  dsimp only
  repeat' split
  all_goals exact ⟨rfl, rfl, rfl, rfl, rfl⟩

lemma ldSalary_IN_preserves (j : JobData) (ld : Json) :
    (Indeed.ldSalary j ld).title = j.title ∧
      (Indeed.ldSalary j ld).company = j.company ∧
      (Indeed.ldSalary j ld).datePosted = j.datePosted ∧
      (Indeed.ldSalary j ld).validThrough = j.validThrough ∧
      (Indeed.ldSalary j ld).visibleSalary = j.visibleSalary ∧
      (Indeed.ldSalary j ld).salaryMismatch = j.salaryMismatch ∧
      (Indeed.ldSalary j ld).jobAge = j.jobAge := by
  unfold Indeed.ldSalary
  repeat' split
  all_goals exact ⟨rfl, rfl, rfl, rfl, rfl, rfl, rfl⟩

lemma ldMerge_IN_mismatch (j : JobData) (ld : Json) (pd : Str → Int)
    (now : Int) :
    (Indeed.ldMerge j ld pd now).salaryMismatch = j.salaryMismatch := by
  obtain ⟨-, -, -, -, dm⟩ := ldDates_IN_preserves j ld pd now
  obtain ⟨-, -, -, -, -, sm, -⟩ :=
    ldSalary_IN_preserves (Indeed.ldDates j ld pd now) ld
  unfold Indeed.ldMerge
  rw [sm, dm]

/-- Claim C1 (amended): the LinkedIn extractor's `salaryMismatch` is true
iff a hidden salary was recovered and no visible salary text exists — in
particular it is false when both are present, even if their values
disagree; the Indeed and hh.ru extractors never set the flag, so their
records always carry `salaryMismatch = false`. -/
theorem C1_salaryMismatch :
    (∀ (doc : Doc) (pd : Str → Int) (now : Int) (iso : Str),
      ((LinkedIn.extractJobData doc pd now iso).salaryMismatch = true ↔
        ((LinkedIn.extractJobData doc pd now iso).hiddenSalary ≠ none ∧
          (LinkedIn.extractJobData doc pd now iso).visibleSalary = none))) ∧
    (∀ (doc : Doc) (pd : Str → Int) (now : Int) (iso : Str),
      (LinkedIn.extractJobData doc pd now iso).hiddenSalary ≠ none →
      (LinkedIn.extractJobData doc pd now iso).visibleSalary ≠ none →
      (LinkedIn.extractJobData doc pd now iso).salaryMismatch = false) ∧
    (∀ (doc : Doc) (pd : Str → Int) (now : Int) (iso : Str)
        (dai : Int → Str),
      (Indeed.extractJobData doc pd now iso dai).salaryMismatch = false) ∧
    (∀ (doc : Doc) (pd : Str → Int) (now : Int) (iso : Str),
      (HH.extractJobData doc pd now iso).salaryMismatch = false) := by
  have iffPart : ∀ (doc : Doc) (pd : Str → Int) (now : Int) (iso : Str),
      ((LinkedIn.extractJobData doc pd now iso).salaryMismatch = true ↔
        ((LinkedIn.extractJobData doc pd now iso).hiddenSalary ≠ none ∧
          (LinkedIn.extractJobData doc pd now iso).visibleSalary = none)) := by
    intro doc pd now iso
    unfold LinkedIn.extractJobData
    dsimp only
    obtain ⟨p1, p2, p3, -⟩ := urlPass_LI_preserves
      (LinkedIn.mismatchPass (LinkedIn.midPass doc pd now iso))
      (match doc.locationHref with | some h => h | none => [])
    rw [p1, p2, p3]
    exact mismatchPass_iff _ (midPass_LI_mismatch doc pd now iso)
      (fun s hs => midPass_LI_visible_ne hs)
  refine ⟨iffPart, ?_, ?_, ?_⟩
  · intro doc pd now iso h1 h2
    rcases hb : (LinkedIn.extractJobData doc pd now iso).salaryMismatch
    · rfl
    · exact absurd ((iffPart doc pd now iso).mp hb).2 h2
  · intro doc pd now iso dai
    unfold Indeed.extractJobData
    dsimp only
    split
    · exact domPass_IN_mismatch doc iso dai
    · rw [ldMerge_IN_mismatch]
      exact domPass_IN_mismatch doc iso dai
  · intro doc pd now iso
    rfl

/-- An Indeed document with a structured salary and no visible salary
element. -/
def c1Doc : Doc :=
  { locationHref := some (S "https://www.indeed.com/viewjob?jk=123"),
    qsa := fun _ => [],
    ldBlocks := [some (.jobj
      [(S "@type", .jstr (S "JobPosting")),
       (S "baseSalary", .jobj
         [(S "currency", .jstr (S "USD")),
          (S "value", .jobj
            [(S "minValue", .jnum 90000),
             (S "maxValue", .jnum 110000),
             (S "unitText", .jstr (S "YEAR"))])])])] }

/-- Claim C1, counterexample: on `c1Doc` the Indeed extractor recovers a
hidden salary, sees no visible salary, and still reports
`salaryMismatch = false` — the claimed iff fails for this extractor. -/
theorem C1_counterexample :
    (Indeed.extractJobData c1Doc (fun _ => 0) 0 [] (fun _ => [])).hiddenSalary =
      some (SalaryRange.mk (some (.jnum 90000)) (some (.jnum 110000))
        (.jstr (S "USD")) .YEAR) ∧
    (Indeed.extractJobData c1Doc (fun _ => 0) 0 [] (fun _ => [])).visibleSalary =
      none ∧
    (Indeed.extractJobData c1Doc (fun _ => 0) 0 [] (fun _ => [])).salaryMismatch =
      false := ⟨rfl, rfl, rfl⟩

/-- Claim C1, witness: the both-present clause at a concrete LinkedIn
document carrying both a visible salary element and a structured salary
of a different value. -/
def c1LinkedInDoc : Doc :=
  { locationHref := some (S "https://www.linkedin.com/jobs/view/123456/"),
    qsa := fun sel =>
      if sel = LinkedIn.salarySelector then
        [⟨some (S "$100,000/yr"), []⟩]
      else [],
    ldBlocks := [some (.jobj
      [(S "@type", .jstr (S "JobPosting")),
       (S "baseSalary", .jobj
         [(S "currency", .jstr (S "USD")),
          (S "value", .jnum 150000)])])] }

theorem C1_witness :
    (LinkedIn.extractJobData c1LinkedInDoc (fun _ => 0) 0 []).salaryMismatch =
      false := by
  refine C1_salaryMismatch.2.1 c1LinkedInDoc (fun _ => 0) 0 [] ?_ ?_
  · intro h
    rw [show (LinkedIn.extractJobData c1LinkedInDoc (fun _ => 0) 0
        []).hiddenSalary = some (SalaryRange.mk (some (.jnum 150000))
          (some (.jnum 150000)) (.jstr (S "USD")) .YEAR) from rfl] at h
    cases h
  · intro h
    rw [show (LinkedIn.extractJobData c1LinkedInDoc (fun _ => 0) 0
        []).visibleSalary = some (S "$100,000/yr") from rfl] at h
    cases h

/-! ## Claim C2: how structured data is merged over the DOM pass -/

lemma ldDates_LI_datePosted {ld v : Json} (j : JobData) (pd : Str → Int)
    (now : Int) (h : truthyOrNull (ld.get (S "datePosted")) = some v) :
    (LinkedIn.ldDates j ld pd now).datePosted = some v.jsString ∧
      (LinkedIn.ldDates j ld pd now).jobAge =
        some (calculateDaysAgo (pd v.jsString) now) := by
  unfold LinkedIn.ldDates
  dsimp only
  rw [h]
  split <;> exact ⟨rfl, rfl⟩

lemma ldDates_LI_validThrough {ld v : Json} (j : JobData) (pd : Str → Int)
    (now : Int) (h : truthyOrNull (ld.get (S "validThrough")) = some v) :
    (LinkedIn.ldDates j ld pd now).validThrough = some v.jsString := by
  unfold LinkedIn.ldDates
  dsimp only
  rw [h]

lemma ldTitle_LI_keep {j : JobData} (ld : Json) (h : j.title ≠ []) :
    (LinkedIn.ldTitle j ld).title = j.title := by
  unfold LinkedIn.ldTitle
  rw [if_neg (fun hc => h (List.isEmpty_iff.mp hc))]

lemma ldTitle_LI_fill {j : JobData} {ld v : Json} (h : j.title = [])
    (hv : truthyOrNull (ld.get (S "title")) = some v) :
    (LinkedIn.ldTitle j ld).title = v.jsString := by
  unfold LinkedIn.ldTitle
  rw [if_pos (by simp [h]), hv]

lemma ldCompany_LI_keep {j : JobData} (ld : Json) (h : j.company ≠ []) :
    (LinkedIn.ldCompany j ld).company = j.company := by
  unfold LinkedIn.ldCompany
  rw [if_neg (fun hc => h (List.isEmpty_iff.mp hc))]

lemma ldCompany_LI_fill {j : JobData} {ld v : Json} (h : j.company = [])
    (hv : (ld.get (S "hiringOrganization")).bind
      (fun org => truthyOrNull (org.get (S "name"))) = some v) :
    (LinkedIn.ldCompany j ld).company = v.jsString := by
  unfold LinkedIn.ldCompany
  rw [if_pos (by simp [h]), hv]

lemma extract_LI_eq (doc : Doc) (pd : Str → Int) (now : Int) (iso : Str)
    {ld : Json} (hld : extractJsonLd doc.ldBlocks = some ld) :
    LinkedIn.extractJobData doc pd now iso =
      LinkedIn.urlPass (LinkedIn.mismatchPass
        (LinkedIn.ldSalary (LinkedIn.ldCompany (LinkedIn.ldTitle
          (LinkedIn.ldDates (LinkedIn.domPass doc iso) ld pd now) ld) ld) ld))
        (match doc.locationHref with | some h => h | none => []) := by
  unfold LinkedIn.extractJobData LinkedIn.midPass LinkedIn.ldMerge
  dsimp only
  rw [hld]

lemma extract_LI_title (doc : Doc) (pd : Str → Int) (now : Int) (iso : Str)
    {ld : Json} (hld : extractJsonLd doc.ldBlocks = some ld) :
    (LinkedIn.extractJobData doc pd now iso).title =
      (LinkedIn.ldTitle
        (LinkedIn.ldDates (LinkedIn.domPass doc iso) ld pd now) ld).title := by
  rw [extract_LI_eq doc pd now iso hld]
  obtain ⟨-, -, -, ut, -⟩ := urlPass_LI_preserves _ _
  rw [ut, (mismatchPass_LI_preserves _).1, (ldSalary_LI_preserves _ _).1,
    (ldCompany_LI_preserves _ _).1]

lemma extract_LI_company (doc : Doc) (pd : Str → Int) (now : Int) (iso : Str)
    {ld : Json} (hld : extractJsonLd doc.ldBlocks = some ld) :
    (LinkedIn.extractJobData doc pd now iso).company =
      (LinkedIn.ldCompany (LinkedIn.ldTitle
        (LinkedIn.ldDates (LinkedIn.domPass doc iso) ld pd now) ld) ld).company := by
  rw [extract_LI_eq doc pd now iso hld]
  obtain ⟨-, -, -, -, uc, -⟩ := urlPass_LI_preserves _ _
  rw [uc, (mismatchPass_LI_preserves _).2.1, (ldSalary_LI_preserves _ _).2.1]

lemma extract_LI_dates (doc : Doc) (pd : Str → Int) (now : Int) (iso : Str)
    {ld : Json} (hld : extractJsonLd doc.ldBlocks = some ld) :
    (LinkedIn.extractJobData doc pd now iso).datePosted =
      (LinkedIn.ldDates (LinkedIn.domPass doc iso) ld pd now).datePosted ∧
    (LinkedIn.extractJobData doc pd now iso).jobAge =
      (LinkedIn.ldDates (LinkedIn.domPass doc iso) ld pd now).jobAge ∧
    (LinkedIn.extractJobData doc pd now iso).validThrough =
      (LinkedIn.ldDates (LinkedIn.domPass doc iso) ld pd now).validThrough := by
  rw [extract_LI_eq doc pd now iso hld]
  obtain ⟨-, -, -, -, -, udp, uvt, uja, -⟩ := urlPass_LI_preserves _ _
  refine ⟨?_, ?_, ?_⟩
  · rw [udp, (mismatchPass_LI_preserves _).2.2.1,
      (ldSalary_LI_preserves _ _).2.2.1, (ldCompany_LI_preserves _ _).2.1,
      (ldTitle_LI_preserves _ _).2.1]
  · rw [uja, (mismatchPass_LI_preserves _).2.2.2.2,
      (ldSalary_LI_preserves _ _).2.2.2.2.2.2,
      (ldCompany_LI_preserves _ _).2.2.2.2.2.2,
      (ldTitle_LI_preserves _ _).2.2.2.2.2.2]
  · rw [uvt, (mismatchPass_LI_preserves _).2.2.2.1,
      (ldSalary_LI_preserves _ _).2.2.2.1, (ldCompany_LI_preserves _ _).2.2.1,
      (ldTitle_LI_preserves _ _).2.2.1]

lemma ldDates_IN_datePosted {ld v : Json} (j : JobData) (pd : Str → Int)
    (now : Int) (h : truthyOrNull (ld.get (S "datePosted")) = some v) :
    (Indeed.ldDates j ld pd now).datePosted = some v.jsString ∧
      (Indeed.ldDates j ld pd now).jobAge =
        some (calculateDaysAgo (pd v.jsString) now) := by
  unfold Indeed.ldDates
  dsimp only
  rw [h]
  split <;> exact ⟨rfl, rfl⟩

lemma ldDates_IN_validThrough {ld v : Json} (j : JobData) (pd : Str → Int)
    (now : Int) (h : truthyOrNull (ld.get (S "validThrough")) = some v) :
    (Indeed.ldDates j ld pd now).validThrough = some v.jsString := by
  unfold Indeed.ldDates
  dsimp only
  rw [h]

lemma extract_IN_eq (doc : Doc) (pd : Str → Int) (now : Int) (iso : Str)
    (dai : Int → Str) {ld : Json}
    (hld : extractJsonLd doc.ldBlocks = some ld) :
    Indeed.extractJobData doc pd now iso dai =
      Indeed.ldSalary
        (Indeed.ldDates (Indeed.domPass doc iso dai) ld pd now) ld := by
  unfold Indeed.extractJobData Indeed.ldMerge
  dsimp only
  rw [hld]

/-- Claim C2 (amended): when a JSON-LD JobPosting node is found, the
LinkedIn extractor overwrites `datePosted`/`jobAge`/`validThrough` with
structured values and backfills title/company only when the DOM pass
produced the empty string; the Indeed extractor overwrites the date
fields the same way and never takes title or company from structured
data; the hh.ru extractor instead prefers the structured title over the
DOM one whenever it is a non-empty string. -/
theorem C2_structuredMerge :
    (∀ (doc : Doc) (pd : Str → Int) (now : Int) (iso : Str) (ld : Json),
      extractJsonLd doc.ldBlocks = some ld →
      (∀ v, truthyOrNull (ld.get (S "datePosted")) = some v →
        (LinkedIn.extractJobData doc pd now iso).datePosted = some v.jsString ∧
        (LinkedIn.extractJobData doc pd now iso).jobAge =
          some (calculateDaysAgo (pd v.jsString) now)) ∧
      (∀ v, truthyOrNull (ld.get (S "validThrough")) = some v →
        (LinkedIn.extractJobData doc pd now iso).validThrough =
          some v.jsString) ∧
      ((LinkedIn.domPass doc iso).title ≠ [] →
        (LinkedIn.extractJobData doc pd now iso).title =
          (LinkedIn.domPass doc iso).title) ∧
      ((LinkedIn.domPass doc iso).title = [] →
        ∀ v, truthyOrNull (ld.get (S "title")) = some v →
        (LinkedIn.extractJobData doc pd now iso).title = v.jsString) ∧
      ((LinkedIn.domPass doc iso).company ≠ [] →
        (LinkedIn.extractJobData doc pd now iso).company =
          (LinkedIn.domPass doc iso).company) ∧
      ((LinkedIn.domPass doc iso).company = [] →
        ∀ v, (ld.get (S "hiringOrganization")).bind
          (fun org => truthyOrNull (org.get (S "name"))) = some v →
        (LinkedIn.extractJobData doc pd now iso).company = v.jsString)) ∧
    (∀ (doc : Doc) (pd : Str → Int) (now : Int) (iso : Str)
        (dai : Int → Str) (ld : Json),
      extractJsonLd doc.ldBlocks = some ld →
      (Indeed.extractJobData doc pd now iso dai).title =
        (Indeed.domPass doc iso dai).title ∧
      (Indeed.extractJobData doc pd now iso dai).company =
        (Indeed.domPass doc iso dai).company ∧
      (∀ v, truthyOrNull (ld.get (S "datePosted")) = some v →
        (Indeed.extractJobData doc pd now iso dai).datePosted =
          some v.jsString ∧
        (Indeed.extractJobData doc pd now iso dai).jobAge =
          some (calculateDaysAgo (pd v.jsString) now)) ∧
      (∀ v, truthyOrNull (ld.get (S "validThrough")) = some v →
        (Indeed.extractJobData doc pd now iso dai).validThrough =
          some v.jsString)) ∧
    (∀ (doc : Doc) (pd : Str → Int) (now : Int) (iso : Str) (t : Str),
      (HH.extractHHJsonLd doc).title = some t → t ≠ [] →
      (HH.extractJobData doc pd now iso).title = t) := by
  refine ⟨?_, ?_, ?_⟩
  · intro doc pd now iso ld hld
    obtain ⟨hdp, hja, hvt⟩ := extract_LI_dates doc pd now iso hld
    obtain ⟨dT, dC, -⟩ :=
      ldDates_LI_preserves (LinkedIn.domPass doc iso) ld pd now
    refine ⟨?_, ?_, ?_, ?_, ?_, ?_⟩
    · intro v hv
      obtain ⟨h1, h2⟩ :=
        ldDates_LI_datePosted (LinkedIn.domPass doc iso) pd now hv
      exact ⟨by rw [hdp, h1], by rw [hja, h2]⟩
    · intro v hv
      rw [hvt, ldDates_LI_validThrough (LinkedIn.domPass doc iso) pd now hv]
    · intro h
      rw [extract_LI_title doc pd now iso hld,
        ldTitle_LI_keep ld (by rw [dT]; exact h), dT]
    · intro h v hv
      rw [extract_LI_title doc pd now iso hld,
        ldTitle_LI_fill (by rw [dT]; exact h) hv]
    · intro h
      obtain ⟨tC, -⟩ := ldTitle_LI_preserves
        (LinkedIn.ldDates (LinkedIn.domPass doc iso) ld pd now) ld
      rw [extract_LI_company doc pd now iso hld,
        ldCompany_LI_keep ld (by rw [tC, dC]; exact h), tC, dC]
    · intro h v hv
      obtain ⟨tC, -⟩ := ldTitle_LI_preserves
        (LinkedIn.ldDates (LinkedIn.domPass doc iso) ld pd now) ld
      rw [extract_LI_company doc pd now iso hld,
        ldCompany_LI_fill (by rw [tC, dC]; exact h) hv]
  · intro doc pd now iso dai ld hld
    have heq := extract_IN_eq doc pd now iso dai hld
    obtain ⟨sT, sC, sDP, sVT, -, -, sJA⟩ := ldSalary_IN_preserves
      (Indeed.ldDates (Indeed.domPass doc iso dai) ld pd now) ld
    obtain ⟨dT, dC, -⟩ :=
      ldDates_IN_preserves (Indeed.domPass doc iso dai) ld pd now
    refine ⟨?_, ?_, ?_, ?_⟩
    · rw [heq, sT, dT]
    · rw [heq, sC, dC]
    · intro v hv
      obtain ⟨h1, h2⟩ :=
        ldDates_IN_datePosted (Indeed.domPass doc iso dai) pd now hv
      exact ⟨by rw [heq, sDP, h1], by rw [heq, sJA, h2]⟩
    · intro v hv
      rw [heq, sVT,
        ldDates_IN_validThrough (Indeed.domPass doc iso dai) pd now hv]
  · intro doc pd now iso t h ht
    unfold HH.extractJobData
    dsimp only
    rw [h]
    simp only [orStr]
    rw [if_neg (fun hc => ht (List.isEmpty_iff.mp hc))]

/-- An hh.ru document carrying both a non-empty DOM title and a
different JSON-LD title. -/
def c2Doc : Doc :=
  { locationHref := some (S "https://hh.ru/vacancy/123"),
    qsa := fun sel =>
      if sel = S "h1[data-qa=\"vacancy-title\"]" then
        [⟨some (S "DOM Title"), []⟩]
      else [],
    ldBlocks := [some (.jobj
      [(S "@type", .jstr (S "JobPosting")),
       (S "title", .jstr (S "LD Title"))])] }

/-- Claim C2, counterexample: on `c2Doc` the hh.ru extractor's DOM pass
finds the non-empty title "DOM Title", yet the returned record's title
is the structured-data "LD Title" — structured data wins over the DOM
for an identity field, against the claim. -/
theorem C2_counterexample :
    (HH.extractFromDOM c2Doc).title = S "DOM Title" ∧
    (HH.extractJobData c2Doc (fun _ => 0) 0 []).title = S "LD Title" ∧
    (HH.extractJobData c2Doc (fun _ => 0) 0 []).title ≠
      (HH.extractFromDOM c2Doc).title := by
  refine ⟨rfl, rfl, ?_⟩
  intro h
  rw [show (HH.extractJobData c2Doc (fun _ => 0) 0 []).title =
      S "LD Title" from rfl,
    show (HH.extractFromDOM c2Doc).title = S "DOM Title" from rfl] at h
  cases h

/-- Claim C2, witness: the hh.ru structured-title clause applied at
`c2Doc`. -/
theorem C2_witness :
    (HH.extractJobData c2Doc (fun _ => 0) 0 []).title = S "LD Title" := by
  refine C2_structuredMerge.2.2 c2Doc (fun _ => 0) 0 [] (S "LD Title") rfl ?_
  intro h
  cases h

/-! ## Claim C3: documents where no selector matches and no structured
data exists -/

lemma getText_empty {doc : Doc} (hq : ∀ sel, doc.qsa sel = []) (s : Str) :
    getText doc s = [] := by
  unfold getText querySel
  rw [hq s]
  rfl

lemma getHtml_empty {doc : Doc} (hq : ∀ sel, doc.qsa sel = []) (s : Str) :
    getHtml doc s = [] := by
  unfold getHtml querySel
  rw [hq s]
  rfl

lemma domPass_LI_empty {doc : Doc} (hq : ∀ sel, doc.qsa sel = []) (iso : Str) :
    (LinkedIn.domPass doc iso).title = [] ∧
      (LinkedIn.domPass doc iso).company = [] ∧
      (LinkedIn.domPass doc iso).location = [] ∧
      (LinkedIn.domPass doc iso).description = [] ∧
      (LinkedIn.domPass doc iso).requirements = [] ∧
      (LinkedIn.domPass doc iso).datePosted = none ∧
      (LinkedIn.domPass doc iso).validThrough = none ∧
      (LinkedIn.domPass doc iso).jobAge = none ∧
      (LinkedIn.domPass doc iso).visibleSalary = none ∧
      (LinkedIn.domPass doc iso).hiddenSalary = none ∧
      (LinkedIn.domPass doc iso).salaryMismatch = false ∧
      (LinkedIn.domPass doc iso).redFlags = [] ∧
      (LinkedIn.domPass doc iso).greenFlags = [] := by
  unfold LinkedIn.domPass createEmptyJobData
  dsimp only
  rw [hq LinkedIn.salarySelector]
  exact ⟨getText_empty hq _, getText_empty hq _, getText_empty hq _,
    getHtml_empty hq _, rfl, rfl, rfl, rfl, rfl, rfl, rfl, rfl, rfl⟩

lemma mismatchPass_id {j : JobData} (h : j.hiddenSalary = none) :
    LinkedIn.mismatchPass j = j := by
  unfold LinkedIn.mismatchPass
  rw [h]
  rfl

lemma parsePostedText_empty {doc : Doc} (hq : ∀ sel, doc.qsa sel = []) :
    Indeed.parsePostedText doc = none := by
  unfold Indeed.parsePostedText querySel
  rw [hq Indeed.postedSelector]
  rfl

lemma domPass_IN_empty {doc : Doc} (hq : ∀ sel, doc.qsa sel = []) (iso : Str)
    (dai : Int → Str) :
    (Indeed.domPass doc iso dai).title = [] ∧
      (Indeed.domPass doc iso dai).company = [] ∧
      (Indeed.domPass doc iso dai).location = [] ∧
      (Indeed.domPass doc iso dai).description = [] ∧
      (Indeed.domPass doc iso dai).requirements = [] ∧
      (Indeed.domPass doc iso dai).datePosted = none ∧
      (Indeed.domPass doc iso dai).validThrough = none ∧
      (Indeed.domPass doc iso dai).jobAge = none ∧
      (Indeed.domPass doc iso dai).visibleSalary = none ∧
      (Indeed.domPass doc iso dai).hiddenSalary = none ∧
      (Indeed.domPass doc iso dai).salaryMismatch = false ∧
      (Indeed.domPass doc iso dai).redFlags = [] ∧
      (Indeed.domPass doc iso dai).greenFlags = [] := by
  unfold Indeed.domPass createEmptyJobData
  dsimp only
  rw [parsePostedText_empty hq, hq Indeed.salarySelector]
  dsimp only
  exact ⟨getText_empty hq _, getText_empty hq _, getText_empty hq _,
    getHtml_empty hq _, rfl, rfl, rfl, rfl, rfl, rfl, rfl, rfl, rfl⟩

lemma findText_empty {doc : Doc} (hq : ∀ sel, doc.qsa sel = []) :
    ∀ sels, HH.findText doc sels = [] := by
  intro sels
  induction sels with
  | nil => rfl
  | cons sel rest ih =>
    unfold HH.findText querySel
    rw [hq sel]
    exact ih

lemma findHtml_empty {doc : Doc} (hq : ∀ sel, doc.qsa sel = []) :
    ∀ sels, HH.findHtml doc sels = [] := by
  intro sels
  induction sels with
  | nil => rfl
  | cons sel rest ih =>
    unfold HH.findHtml querySel
    rw [hq sel]
    exact ih

lemma extractFromDOM_empty {doc : Doc} (hq : ∀ sel, doc.qsa sel = []) :
    HH.extractFromDOM doc = ⟨[], [], [], [], none⟩ := by
  unfold HH.extractFromDOM
  rw [findText_empty hq, findText_empty hq, findText_empty hq,
    findHtml_empty hq, findText_empty hq]
  rfl

/-- Claim C3 (amended): on a document where no selector matches any
element and structured-data extraction yields nothing, every extractor
returns normally; LinkedIn and Indeed return the fully empty record
(empty strings, nulls, empty lists), while hh.ru substitutes the
placeholders "Unknown Title"/"Unknown Company"/"Unknown Location" for
the three identity text fields and leaves the rest empty. -/
theorem C3_emptyDocument :
    ∀ (doc : Doc), (∀ sel, doc.qsa sel = []) →
      extractJsonLd doc.ldBlocks = none →
      ∀ (pd : Str → Int) (now : Int) (iso : Str) (dai : Int → Str),
      ((LinkedIn.extractJobData doc pd now iso).title = [] ∧
        (LinkedIn.extractJobData doc pd now iso).company = [] ∧
        (LinkedIn.extractJobData doc pd now iso).location = [] ∧
        (LinkedIn.extractJobData doc pd now iso).description = [] ∧
        (LinkedIn.extractJobData doc pd now iso).requirements = [] ∧
        (LinkedIn.extractJobData doc pd now iso).datePosted = none ∧
        (LinkedIn.extractJobData doc pd now iso).validThrough = none ∧
        (LinkedIn.extractJobData doc pd now iso).jobAge = none ∧
        (LinkedIn.extractJobData doc pd now iso).visibleSalary = none ∧
        (LinkedIn.extractJobData doc pd now iso).hiddenSalary = none ∧
        (LinkedIn.extractJobData doc pd now iso).salaryMismatch = false ∧
        (LinkedIn.extractJobData doc pd now iso).redFlags = [] ∧
        (LinkedIn.extractJobData doc pd now iso).greenFlags = []) ∧
      ((Indeed.extractJobData doc pd now iso dai).title = [] ∧
        (Indeed.extractJobData doc pd now iso dai).company = [] ∧
        (Indeed.extractJobData doc pd now iso dai).location = [] ∧
        (Indeed.extractJobData doc pd now iso dai).description = [] ∧
        (Indeed.extractJobData doc pd now iso dai).requirements = [] ∧
        (Indeed.extractJobData doc pd now iso dai).datePosted = none ∧
        (Indeed.extractJobData doc pd now iso dai).validThrough = none ∧
        (Indeed.extractJobData doc pd now iso dai).jobAge = none ∧
        (Indeed.extractJobData doc pd now iso dai).visibleSalary = none ∧
        (Indeed.extractJobData doc pd now iso dai).hiddenSalary = none ∧
        (Indeed.extractJobData doc pd now iso dai).salaryMismatch = false ∧
        (Indeed.extractJobData doc pd now iso dai).redFlags = [] ∧
        (Indeed.extractJobData doc pd now iso dai).greenFlags = []) ∧
      ((HH.extractJobData doc pd now iso).title = S "Unknown Title" ∧
        (HH.extractJobData doc pd now iso).company = S "Unknown Company" ∧
        (HH.extractJobData doc pd now iso).location = S "Unknown Location" ∧
        (HH.extractJobData doc pd now iso).description = [] ∧
        (HH.extractJobData doc pd now iso).requirements = [] ∧
        (HH.extractJobData doc pd now iso).datePosted = none ∧
        (HH.extractJobData doc pd now iso).validThrough = none ∧
        (HH.extractJobData doc pd now iso).jobAge = none ∧
        (HH.extractJobData doc pd now iso).visibleSalary = none ∧
        (HH.extractJobData doc pd now iso).hiddenSalary = none ∧
        (HH.extractJobData doc pd now iso).salaryMismatch = false ∧
        (HH.extractJobData doc pd now iso).redFlags = [] ∧
        (HH.extractJobData doc pd now iso).greenFlags = []) := by
  intro doc hq hldn pd now iso dai
  refine ⟨?_, ?_, ?_⟩
  · have hext : LinkedIn.extractJobData doc pd now iso =
        LinkedIn.urlPass (LinkedIn.domPass doc iso)
          (match doc.locationHref with | some h => h | none => []) := by
      unfold LinkedIn.extractJobData LinkedIn.midPass
      dsimp only
      rw [hldn,
        mismatchPass_id (domPass_LI_empty hq iso).2.2.2.2.2.2.2.2.2.1]
    obtain ⟨e1, e2, e3, e4, e5, e6, e7, e8, e9, e10, e11, e12, e13⟩ :=
      domPass_LI_empty hq iso
    obtain ⟨u1, u2, u3, u4, u5, u6, u7, u8, u9, u10, u11, u12, u13⟩ :=
      urlPass_LI_preserves (LinkedIn.domPass doc iso)
        (match doc.locationHref with | some h => h | none => [])
    rw [hext]
    exact ⟨by rw [u4, e1], by rw [u5, e2], by rw [u9, e3], by rw [u10, e4],
      by rw [u11, e5], by rw [u6, e6], by rw [u7, e7], by rw [u8, e8],
      by rw [u3, e9], by rw [u2, e10], by rw [u1, e11], by rw [u12, e12],
      by rw [u13, e13]⟩
  · have hext : Indeed.extractJobData doc pd now iso dai =
        Indeed.domPass doc iso dai := by
      unfold Indeed.extractJobData
      dsimp only
      rw [hldn]
    rw [hext]
    exact domPass_IN_empty hq iso dai
  · have hld : HH.extractHHJsonLd doc = ⟨none, none, none, none, none, none⟩ := by
      unfold HH.extractHHJsonLd
      rw [hldn]
    unfold HH.extractJobData
    dsimp only
    rw [hld, extractFromDOM_empty hq]
    exact ⟨rfl, rfl, rfl, rfl, rfl, rfl, rfl, rfl, rfl, rfl, rfl, rfl, rfl⟩

/-- A document with no matching elements and no structured-data blocks. -/
def emptyDoc : Doc := ⟨none, fun _ => [], []⟩

/-- Claim C3, counterexample: on the empty document the hh.ru extractor
returns the placeholder "Unknown Title" instead of the claimed empty
string. -/
theorem C3_counterexample :
    (HH.extractJobData emptyDoc (fun _ => 0) 0 []).title = S "Unknown Title" ∧
      (HH.extractJobData emptyDoc (fun _ => 0) 0 []).title ≠ [] := by
  refine ⟨rfl, ?_⟩
  intro h
  rw [show (HH.extractJobData emptyDoc (fun _ => 0) 0 []).title =
      S "Unknown Title" from rfl] at h
  cases h

/-- Claim C3, witness: the theorem applied at the empty document. -/
theorem C3_witness :
    (LinkedIn.extractJobData emptyDoc (fun _ => 0) 0 []).title = [] ∧
      (Indeed.extractJobData emptyDoc (fun _ => 0) 0 [] (fun _ => [])).hiddenSalary
        = none ∧
      (HH.extractJobData emptyDoc (fun _ => 0) 0 []).title = S "Unknown Title" := by
  obtain ⟨hLI, hIN, hHH⟩ := C3_emptyDocument emptyDoc (fun _ => rfl) rfl
    (fun _ => 0) 0 [] (fun _ => [])
  exact ⟨hLI.1, hIN.2.2.2.2.2.2.2.2.2.1, hHH.1⟩

/-! ## Claim C7: at least one bound in an instantiated SalaryRange -/

lemma parseSalary_bounds {s : Option Str} {r : SalaryRange}
    (h : parseSalary s = some r) : r.min ≠ none ∨ r.max ≠ none := by
  unfold parseSalary at h
  split at h
  · cases h
  · split at h
    · cases h
    · dsimp only at h
      split at h
      · obtain rfl := Option.some.inj h
        left
        intro hc
        cases hc
      · split at h
        · split at h
          · obtain rfl := Option.some.inj h
            left
            intro hc
            cases hc
          · split at h
            · obtain rfl := Option.some.inj h
              right
              intro hc
              cases hc
            · obtain rfl := Option.some.inj h
              left
              intro hc
              cases hc
        · cases h

lemma ldSalary_LI_numeric (j : JobData) {ld bs : Json} (n : Int)
    (h1 : ld.get (S "baseSalary") = some bs) (h2 : bs.truthy = true)
    (h3 : bs.get (S "value") = some (.jnum n)) :
    (LinkedIn.ldSalary j ld).hiddenSalary = some (SalaryRange.mk
      (some (.jnum n)) (some (.jnum n))
      (jsOrJson (bs.get (S "currency")) (.jstr (S "EUR"))) .YEAR) := by
  unfold LinkedIn.ldSalary
  rw [h1]
  dsimp only
  rw [if_pos h2, h3]

lemma ldSalary_LI_object (j : JobData) {ld bs : Json} (l : List (Str × Json))
    (h1 : ld.get (S "baseSalary") = some bs) (h2 : bs.truthy = true)
    (h3 : bs.get (S "value") = some (.jobj l)) :
    (LinkedIn.ldSalary j ld).hiddenSalary = some (SalaryRange.mk
      (truthyOrNull ((Json.jobj l).get (S "minValue")))
      (truthyOrNull ((Json.jobj l).get (S "maxValue")))
      (jsOrJson (bs.get (S "currency")) (.jstr (S "EUR")))
      (mapSalaryPeriod (((Json.jobj l).get (S "unitText")).bind Json.asStr))) := by
  unfold LinkedIn.ldSalary
  rw [h1]
  dsimp only
  rw [if_pos h2, h3]

lemma ldSalary_IN_object (j : JobData) {ld bs sv : Json}
    (h1 : ld.get (S "baseSalary") = some bs) (h2 : bs.truthy = true)
    (h3 : bs.get (S "value") = some sv) (h4 : sv.truthy = true) :
    (Indeed.ldSalary j ld).hiddenSalary = some (SalaryRange.mk
      (truthyOrNull (sv.get (S "minValue")))
      (truthyOrNull (sv.get (S "maxValue")))
      (jsOrJson (bs.get (S "currency")) (.jstr (S "USD")))
      (mapSalaryPeriod ((sv.get (S "unitText")).bind Json.asStr))) := by
  unfold Indeed.ldSalary
  rw [h1]
  dsimp only
  rw [if_pos h2, h3]
  dsimp only
  rw [if_pos h4]

/-- Claim C7 (amended): the hh.ru free-text parser always sets at least
one bound of any SalaryRange it returns, and LinkedIn's numeric
`baseSalary.value` sets both bounds; but when `baseSalary.value` is an
object the two bounds are taken independently as `minValue`/`maxValue`
filtered through truthiness, so an object carrying neither leaves both
`min` and `max` null in the instantiated SalaryRange (LinkedIn and
Indeed). -/
theorem C7_salaryBounds :
    (∀ (doc : Doc) (pd : Str → Int) (now : Int) (iso : Str) (r : SalaryRange),
      (HH.extractJobData doc pd now iso).hiddenSalary = some r →
      r.min ≠ none ∨ r.max ≠ none) ∧
    (∀ (j : JobData) (ld bs : Json) (n : Int),
      ld.get (S "baseSalary") = some bs → bs.truthy = true →
      bs.get (S "value") = some (.jnum n) →
      (LinkedIn.ldSalary j ld).hiddenSalary = some (SalaryRange.mk
        (some (.jnum n)) (some (.jnum n))
        (jsOrJson (bs.get (S "currency")) (.jstr (S "EUR"))) .YEAR)) ∧
    (∀ (j : JobData) (ld bs : Json) (l : List (Str × Json)),
      ld.get (S "baseSalary") = some bs → bs.truthy = true →
      bs.get (S "value") = some (.jobj l) →
      (LinkedIn.ldSalary j ld).hiddenSalary = some (SalaryRange.mk
        (truthyOrNull ((Json.jobj l).get (S "minValue")))
        (truthyOrNull ((Json.jobj l).get (S "maxValue")))
        (jsOrJson (bs.get (S "currency")) (.jstr (S "EUR")))
        (mapSalaryPeriod (((Json.jobj l).get (S "unitText")).bind Json.asStr)))) ∧
    (∀ (j : JobData) (ld bs sv : Json),
      ld.get (S "baseSalary") = some bs → bs.truthy = true →
      bs.get (S "value") = some sv → sv.truthy = true →
      (Indeed.ldSalary j ld).hiddenSalary = some (SalaryRange.mk
        (truthyOrNull (sv.get (S "minValue")))
        (truthyOrNull (sv.get (S "maxValue")))
        (jsOrJson (bs.get (S "currency")) (.jstr (S "USD")))
        (mapSalaryPeriod ((sv.get (S "unitText")).bind Json.asStr)))) := by
  refine ⟨?_, ?_, ?_, ?_⟩
  · intro doc pd now iso r h
    unfold HH.extractJobData at h
    dsimp only at h
    exact parseSalary_bounds h
  · intro j ld bs n h1 h2 h3
    exact ldSalary_LI_numeric j n h1 h2 h3
  · intro j ld bs l h1 h2 h3
    exact ldSalary_LI_object j l h1 h2 h3
  · intro j ld bs sv h1 h2 h3 h4
    exact ldSalary_IN_object j h1 h2 h3 h4

/-- An Indeed document whose structured salary value is an object with
neither a `minValue` nor a `maxValue` key. -/
def c7Doc : Doc :=
  { locationHref := some (S "https://www.indeed.com/viewjob?jk=456"),
    qsa := fun _ => [],
    ldBlocks := [some (.jobj
      [(S "@type", .jstr (S "JobPosting")),
       (S "baseSalary", .jobj
         [(S "currency", .jstr (S "USD")),
          (S "value", .jobj [])])])] }

/-- Claim C7, counterexample: on `c7Doc` the Indeed extractor
instantiates a SalaryRange from the structured baseSalary node, yet
both `min` and `max` of that SalaryRange are null. -/
theorem C7_counterexample :
    (Indeed.extractJobData c7Doc (fun _ => 0) 0 [] (fun _ => [])).hiddenSalary =
      some (SalaryRange.mk none none (.jstr (S "USD")) .YEAR) ∧
    ∀ r, (Indeed.extractJobData c7Doc (fun _ => 0) 0 []
        (fun _ => [])).hiddenSalary = some r →
      r.min = none ∧ r.max = none := by
  refine ⟨rfl, ?_⟩
  intro r h
  rw [show (Indeed.extractJobData c7Doc (fun _ => 0) 0 []
      (fun _ => [])).hiddenSalary =
    some (SalaryRange.mk none none (.jstr (S "USD")) .YEAR) from rfl] at h
  obtain rfl := Option.some.inj h
  exact ⟨rfl, rfl⟩

/-- Claim C7, witness: the LinkedIn numeric clause at a concrete node. -/
theorem C7_witness :
    (LinkedIn.ldSalary (createEmptyJobData [] (S "linkedin") [])
        (.jobj [(S "baseSalary", .jobj [(S "value", .jnum 100)])])).hiddenSalary =
      some (SalaryRange.mk (some (.jnum 100)) (some (.jnum 100))
        (.jstr (S "EUR")) .YEAR) :=
  C7_salaryBounds.2.1 (createEmptyJobData [] (S "linkedin") [])
    (.jobj [(S "baseSalary", .jobj [(S "value", .jnum 100)])])
    (.jobj [(S "value", .jnum 100)]) 100 rfl rfl rfl

end JobBodyguard
